import Mathlib

/-!
# Verification of the Railway vector-graphics core

Shallow embedding of the Railway repository (binary codec in
`src/format.rs` / `src/lib.rs`, value machine in `src/computing.rs`,
renderer state and compositor in `src/rendering.rs`), together with
proofs settling the frozen claims about the specification.

Modelling conventions:
* bytes and 32-bit words are `Nat` (with explicit `% 2^32` where the code
  truncates to `u32`);
* `f32` values handled by the codec are kept as raw 32-bit patterns
  (`Nat`), exactly as `format.rs` moves them (it only reinterprets bytes);
* `f32` values handled by the value machine are an exact inductive
  surrogate `Flt` (finite rational, two infinities, NaN); rounding is not
  modelled, and every claim settled on concrete numbers uses values on
  which `f32` arithmetic is exact;
* transcendental functions (`sin`, `cos`, `atan2`, `sqrt`) are parameters
  (a `Transc` structure), since no claim depends on their values;
* fallible Rust functions returning `Result`/`Option` become
  `Except`/`Option` values.
-/

deriving instance DecidableEq for Except

namespace Railway

/-- Parse errors, mirroring `ParsingError` from `src/format.rs` together
with the extra `ExcessBytes` constructor of `src/computing.rs`. -/
inductive ParsingError where
  | NotARailwayFile
  | TooShort
  | ExcessBytes
  | InvalidStepType
  | InvalidOperation
  | InvalidRenderingStep
  | InvalidName
  | NoArguments
  | InvalidIndex
deriving DecidableEq, Repr

/-- The opcode set of the value machine (`Operation` in `src/computing.rs`). -/
inductive Operation where
  | Add2
  | Subtract2
  | Multiply2
  | Divide2
  | Select2
  | EachX2
  | EachY2
  | Polar1
  | Cartesian1
  | Cartesian2
  | Inside3
  | Swap1
  | Adjusted3
  | Clamp3
deriving DecidableEq, Repr

/-- Function `Operation::opcode` from `src/computing.rs`. -/
def Operation.opcode : Operation → Nat
  | .Add2 => 0x0
  | .Subtract2 => 0x1
  | .Multiply2 => 0x2
  | .Divide2 => 0x3
  | .Select2 => 0x4
  | .EachX2 => 0x5
  | .EachY2 => 0x6
  | .Polar1 => 0x7
  | .Cartesian1 => 0x8
  | .Cartesian2 => 0x9
  | .Inside3 => 0xA
  | .Swap1 => 0xB
  | .Adjusted3 => 0xC
  | .Clamp3 => 0xD

/-- The `OPERATIONS` table (opcode → operation) from `src/computing.rs`,
also used by the parser in `src/format.rs`. -/
def OPERATIONS : List Operation :=
  [.Add2, .Subtract2, .Multiply2, .Divide2, .Select2, .EachX2, .EachY2,
   .Polar1, .Cartesian1, .Cartesian2, .Inside3, .Swap1, .Adjusted3, .Clamp3]

/-- An instruction: an operation plus three operand addresses
(`Instruction` in `src/computing.rs`; the `[Address; 3]` array is spread
into three fields `o0`, `o1`, `o2`). -/
structure Instruction where
  operation : Operation
  o0 : Nat
  o1 : Nat
  o2 : Nat
deriving DecidableEq, Repr

instance : Inhabited Instruction := ⟨⟨.Add2, 0, 0, 0⟩⟩

/-- Type `StepType` from `src/drawing.rs`. -/
inductive StepType where
  | Arc
  | CubicCurve
  | QuadraticCurve
  | Line
deriving DecidableEq, Repr

/-- Function `StepType::as_u32` from `src/drawing.rs`. -/
def StepType.asU32 : StepType → Nat
  | .Arc => 0
  | .CubicCurve => 1
  | .QuadraticCurve => 2
  | .Line => 3

/-- The `STEP_TYPES` table from `src/drawing.rs`. -/
def STEP_TYPES : List StepType := [.Arc, .CubicCurve, .QuadraticCurve, .Line]

/-! ## Codec-level data model (`src/lib.rs`, `src/primitive.rs`,
`src/drawing.rs`)

The codec never interprets floats: it moves 4-byte groups.  So at this
level a `Couple` is a pair of raw 32-bit patterns. -/

/-- A couple as the codec sees it: two raw `f32` bit patterns. -/
structure BCouple where
  x : Nat
  y : Nat
deriving DecidableEq, Repr

/-- Type `Argument` (`src/computing.rs`, as used by `src/format.rs`): optional
UTF-8 name (kept as its byte sequence), default value and advisory range.
`rlo` is `range.0` (the minima couple) and `rhi` is `range.1` (the maxima
couple), exactly as in the source. -/
structure BArgument where
  name : Option (List Nat)
  value : BCouple
  rlo : BCouple
  rhi : BCouple
deriving DecidableEq, Repr

/-- Type `Output`: optional name plus a stack address. -/
structure BOutput where
  name : Option (List Nat)
  address : Nat
deriving DecidableEq, Repr

/-- Type `Triangle` (`src/drawing.rs`): three point addresses and three color
address pairs. -/
structure BTriangle where
  p0 : Nat
  p1 : Nat
  p2 : Nat
  c0 : Nat × Nat
  c1 : Nat × Nat
  c2 : Nat × Nat
deriving DecidableEq, Repr

/-- Type `Arc` (`src/primitive.rs`): center, angular range and radii addresses. -/
structure BArc where
  center : Nat
  angularRange : Nat
  radii : Nat
deriving DecidableEq, Repr

/-- Type `CubicCurve` (`src/primitive.rs`). -/
structure BCubic where
  p0 : Nat
  p1 : Nat
  p2 : Nat
  p3 : Nat
deriving DecidableEq, Repr

/-- Type `QuadraticCurve` (`src/primitive.rs`). -/
structure BQuad where
  p0 : Nat
  p1 : Nat
  p2 : Nat
deriving DecidableEq, Repr

/-- Type `Line` (`src/primitive.rs`). -/
structure BLine where
  p0 : Nat
  p1 : Nat
deriving DecidableEq, Repr

/-- Type `Stroker` (`src/drawing.rs`): pattern, width and color addresses. -/
structure BStroker where
  pattern : Nat
  width : Nat
  c0 : Nat
  c1 : Nat
deriving DecidableEq, Repr

/-- Type `RenderingStep` (`src/drawing.rs`): clip a path with a background, or
stroke a path with a stroker. -/
inductive BRenderingStep where
  | Clip (path : Nat) (background : Nat)
  | Stroke (path : Nat) (stroker : Nat)
deriving DecidableEq, Repr

/-- The decoded `Program` (`src/lib.rs`). -/
structure Program where
  arguments : List BArgument
  instructions : List Instruction
  outputs : List BOutput
  arcs : List BArc
  cubicCurves : List BCubic
  quadraticCurves : List BQuad
  lines : List BLine
  triangles : List BTriangle
  strokers : List BStroker
  paths : List (List (StepType × Nat))
  backgrounds : List (List Nat)
  renderingSteps : List BRenderingStep
deriving DecidableEq, Repr

/-! ## Byte-level primitives -/

/-- The four magic bytes `R W Y 0`. -/
def MAGIC_BYTES : List Nat := [82, 87, 89, 48]

/-- Big-endian bytes of `n` truncated to `u32`
(`u32::to_be_bytes` composed with the `_u32` cast of `src/format.rs`). -/
def w32 (n : Nat) : List Nat :=
  [n / 2 ^ 24 % 256, n / 2 ^ 16 % 256, n / 2 ^ 8 % 256, n % 256]

/-- A consuming byte parser: takes the remaining bytes, returns a value
plus the rest, or a parse error.  Models the `(&[u8], &mut usize)`
pattern of `src/format.rs` (all reads there are sequential). -/
def P (α : Type) : Type := List Nat → Except ParsingError (α × List Nat)

/-- Sequencing of byte parsers. -/
def pbind (p : P α) (f : α → P β) : P β := fun b =>
  match p b with
  | .ok (a, r) => f a r
  | .error e => .error e

/-- A parser returning a fixed value without consuming input. -/
def ppure (a : α) : P α := fun b => .ok (a, b)

/-- A parser failing with a fixed error. -/
def pfail (e : ParsingError) : P α := fun _ => .error e

/-- Lift an already-computed `Except` value into a parser. -/
def plift (x : Except ParsingError α) : P α := fun b =>
  match x with
  | .ok a => .ok (a, b)
  | .error e => .error e

/-- Reader `try_u32` from `src/format.rs`: 4 bytes, big-endian, or `TooShort`. -/
def pU32 : P Nat := fun b =>
  match b with
  | b0 :: b1 :: b2 :: b3 :: r => .ok (((b0 * 256 + b1) * 256 + b2) * 256 + b3, r)
  | _ => .error .TooShort

/-- Reader `slice` from `src/format.rs`: `len` raw bytes, or `TooShort`. -/
def pBytes (len : Nat) : P (List Nat) := fun b =>
  if len ≤ b.length then .ok (b.take len, b.drop len) else .error .TooShort

/-- Parse exactly `n` records with the item parser `p`
(the `for _ in 0..capacity` loops of `src/format.rs`). -/
def pListN (p : P α) : Nat → P (List α)
  | 0 => ppure []
  | n + 1 =>
    pbind p fun x =>
    pbind (pListN p n) fun xs =>
    ppure (x :: xs)

/-! ## UTF-8 validation

`String::from_utf8` in `parse` accepts exactly well-formed UTF-8; this is
the standard byte-level validator (continuation bytes `80..BF`, no
overlong forms, no surrogates, max `U+10FFFF`). -/

/-- Is `b` a UTF-8 continuation byte? -/
def isCont (b : Nat) : Bool := 0x80 ≤ b && b ≤ 0xBF

/-- UTF-8 validity of a byte sequence. -/
def utf8Valid : List Nat → Bool
  | [] => true
  | b :: rest =>
    if b ≤ 0x7F then utf8Valid rest
    else if 0xC2 ≤ b && b ≤ 0xDF then
      match rest with
      | c1 :: r => isCont c1 && utf8Valid r
      | [] => false
    else if b = 0xE0 then
      match rest with
      | c1 :: c2 :: r => (0xA0 ≤ c1 && c1 ≤ 0xBF) && isCont c2 && utf8Valid r
      | _ => false
    else if (0xE1 ≤ b && b ≤ 0xEC) || b = 0xEE || b = 0xEF then
      match rest with
      | c1 :: c2 :: r => isCont c1 && isCont c2 && utf8Valid r
      | _ => false
    else if b = 0xED then
      match rest with
      | c1 :: c2 :: r => (0x80 ≤ c1 && c1 ≤ 0x9F) && isCont c2 && utf8Valid r
      | _ => false
    else if b = 0xF0 then
      match rest with
      | c1 :: c2 :: c3 :: r =>
        (0x90 ≤ c1 && c1 ≤ 0xBF) && isCont c2 && isCont c3 && utf8Valid r
      | _ => false
    else if 0xF1 ≤ b && b ≤ 0xF3 then
      match rest with
      | c1 :: c2 :: c3 :: r => isCont c1 && isCont c2 && isCont c3 && utf8Valid r
      | _ => false
    else if b = 0xF4 then
      match rest with
      | c1 :: c2 :: c3 :: r =>
        (0x80 ≤ c1 && c1 ≤ 0x8F) && isCont c2 && isCont c3 && utf8Valid r
      | _ => false
    else false

/-! ## The parser (`parse` in `src/format.rs`) -/

/-- One argument record: name length plus value/range floats (read in file
order `x, y, min_x, max_x, min_y, max_y`); the name itself is attached
later from the string tail, so the record parser returns the length
alongside a nameless `Argument`. -/
def pArgRec : P (Nat × BArgument) :=
  pbind pU32 fun nameLen =>
  pbind pU32 fun x =>
  pbind pU32 fun y =>
  pbind pU32 fun minX =>
  pbind pU32 fun maxX =>
  pbind pU32 fun minY =>
  pbind pU32 fun maxY =>
  ppure (nameLen, { name := none, value := ⟨x, y⟩, rlo := ⟨minX, minY⟩, rhi := ⟨maxX, maxY⟩ })

/-- One instruction record: opcode (validated against `OPERATIONS` before
the operands are read) plus three operands. -/
def pInstruction : P Instruction :=
  pbind pU32 fun opcode =>
  pbind (plift ((OPERATIONS[opcode]?).elim (.error .InvalidOperation) .ok)) fun operation =>
  pbind pU32 fun a =>
  pbind pU32 fun b =>
  pbind pU32 fun c =>
  ppure { operation, o0 := a, o1 := b, o2 := c }

/-- One output record: name length plus address. -/
def pOutRec : P (Nat × BOutput) :=
  pbind pU32 fun nameLen =>
  pbind pU32 fun address =>
  ppure (nameLen, { name := none, address })

/-- One triangle record: nine addresses. -/
def pTriangle : P BTriangle :=
  pbind pU32 fun p0 =>
  pbind pU32 fun p1 =>
  pbind pU32 fun p2 =>
  pbind pU32 fun c00 =>
  pbind pU32 fun c01 =>
  pbind pU32 fun c10 =>
  pbind pU32 fun c11 =>
  pbind pU32 fun c20 =>
  pbind pU32 fun c21 =>
  ppure { p0, p1, p2, c0 := (c00, c01), c1 := (c10, c11), c2 := (c20, c21) }

/-- One arc record: three addresses. -/
def pArc : P BArc :=
  pbind pU32 fun center =>
  pbind pU32 fun angularRange =>
  pbind pU32 fun radii =>
  ppure { center, angularRange, radii }

/-- One cubic-curve record: four addresses. -/
def pCubic : P BCubic :=
  pbind pU32 fun p0 =>
  pbind pU32 fun p1 =>
  pbind pU32 fun p2 =>
  pbind pU32 fun p3 =>
  ppure { p0, p1, p2, p3 }

/-- One quadratic-curve record: three addresses. -/
def pQuad : P BQuad :=
  pbind pU32 fun p0 =>
  pbind pU32 fun p1 =>
  pbind pU32 fun p2 =>
  ppure { p0, p1, p2 }

/-- One line record: two addresses. -/
def pLine : P BLine :=
  pbind pU32 fun p0 =>
  pbind pU32 fun p1 =>
  ppure { p0, p1 }

/-- One stroker record: four addresses. -/
def pStroker : P BStroker :=
  pbind pU32 fun pattern =>
  pbind pU32 fun width =>
  pbind pU32 fun c0 =>
  pbind pU32 fun c1 =>
  ppure { pattern, width, c0, c1 }

/-- Decode a flat `(step_type, index)*` word list into path steps
(the `chunks(2)` + `STEP_TYPES.get` mapping of `parse`; a trailing odd
word cannot occur because the flat list always has even length). -/
def decodeSteps : List Nat → Except ParsingError (List (StepType × Nat))
  | [] => .ok []
  | [_] => .error .InvalidStepType
  | t :: idx :: rest =>
    match STEP_TYPES[t]? with
    | some st => (decodeSteps rest).map ((st, idx) :: ·)
    | none => .error .InvalidStepType

/-- One path record: step count, then `2 * count` raw words, decoded into
`(StepType, index)` pairs. -/
def pPath : P (List (StepType × Nat)) :=
  pbind pU32 fun steps =>
  pbind (pListN pU32 (steps * 2)) fun raw =>
  plift (decodeSteps raw)

/-- One background record: triangle count then that many indices. -/
def pBackground : P (List Nat) :=
  pbind pU32 fun triangles =>
  pListN pU32 triangles

/-- One rendering-step record: tag (0 = Clip, 1 = Stroke) plus two
indices; any other tag is `InvalidRenderingStep`. -/
def pRenderingStep : P BRenderingStep :=
  pbind pU32 fun clipOrStroke =>
  pbind pU32 fun path =>
  pbind pU32 fun other =>
  if clipOrStroke = 0 then ppure (.Clip path other)
  else if clipOrStroke = 1 then ppure (.Stroke path other)
  else pfail .InvalidRenderingStep

/-- Fill in argument names from the string tail: for each record whose
stored length is nonzero, take that many bytes and require valid UTF-8
(the two "names of ..." loops at the end of `parse`). -/
def fillArgNames : List (Nat × BArgument) → P (List BArgument)
  | [] => ppure []
  | (len, a) :: rest =>
    if len ≠ 0 then
      pbind (pBytes len) fun nm =>
      if utf8Valid nm then
        pbind (fillArgNames rest) fun as_ =>
        ppure ({ a with name := some nm } :: as_)
      else pfail .InvalidName
    else
      pbind (fillArgNames rest) fun as_ =>
      ppure (a :: as_)

/-- Fill in output names from the string tail. -/
def fillOutNames : List (Nat × BOutput) → P (List BOutput)
  | [] => ppure []
  | (len, o) :: rest =>
    if len ≠ 0 then
      pbind (pBytes len) fun nm =>
      if utf8Valid nm then
        pbind (fillOutNames rest) fun os =>
        ppure ({ o with name := some nm } :: os)
      else pfail .InvalidName
    else
      pbind (fillOutNames rest) fun os =>
      ppure (o :: os)

/-- Body of `parse` after the magic has been stripped: the fourteen
sections in file order, then the name strings.  Trailing bytes are
ignored, exactly as in `src/format.rs` (no excess-byte check there). -/
def parseBody : P Program :=
  pbind pU32 fun nArgs =>
  pbind (pListN pArgRec nArgs) fun argRecs =>
  pbind pU32 fun nIns =>
  pbind (pListN pInstruction nIns) fun instructions =>
  pbind pU32 fun nOuts =>
  pbind (pListN pOutRec nOuts) fun outRecs =>
  pbind pU32 fun nTris =>
  pbind (pListN pTriangle nTris) fun triangles =>
  pbind pU32 fun nArcs =>
  pbind (pListN pArc nArcs) fun arcs =>
  pbind pU32 fun nCubics =>
  pbind (pListN pCubic nCubics) fun cubicCurves =>
  pbind pU32 fun nQuads =>
  pbind (pListN pQuad nQuads) fun quadraticCurves =>
  pbind pU32 fun nLines =>
  pbind (pListN pLine nLines) fun lines =>
  pbind pU32 fun nStrokers =>
  pbind (pListN pStroker nStrokers) fun strokers =>
  pbind pU32 fun nPaths =>
  pbind (pListN pPath nPaths) fun paths =>
  pbind pU32 fun nBgs =>
  pbind (pListN pBackground nBgs) fun backgrounds =>
  pbind pU32 fun nSteps =>
  pbind (pListN pRenderingStep nSteps) fun renderingSteps =>
  pbind (fillArgNames argRecs) fun arguments =>
  pbind (fillOutNames outRecs) fun outputs =>
  ppure { arguments, instructions, outputs, arcs, cubicCurves,
          quadraticCurves, lines, triangles, strokers, paths,
          backgrounds, renderingSteps }

/-- Function `parse` from `src/format.rs`: strip the magic, then read the body.
This low-level parse does not check indices (`Program::parse` does). -/
def parse (bytes : List Nat) : Except ParsingError Program :=
  match bytes with
  | 82 :: 87 :: 89 :: 48 :: rest =>
    match parseBody rest with
    | .ok (p, _) => .ok p
    | .error e => .error e
  | _ => .error .NotARailwayFile

/-! ## The serializer (`dump` in `src/format.rs`)

`dump` writes each section sequentially; the encoding below is the same
byte stream, grouped right-nested so each group corresponds to one reader
step. -/

/-- The name length `dump` stores for an argument or output
(`s.len()` if named, `0` otherwise). -/
def nameLenOf : Option (List Nat) → Nat
  | some s => s.length
  | none => 0

/-- Bytes of one argument record
(name length, `value.x`, `value.y`, `range.0.x`, `range.1.x`,
`range.0.y`, `range.1.y`). -/
def dArgItem (a : BArgument) : List Nat :=
  w32 (nameLenOf a.name) ++ (w32 a.value.x ++ (w32 a.value.y ++
  (w32 a.rlo.x ++ (w32 a.rhi.x ++ (w32 a.rlo.y ++ w32 a.rhi.y)))))

/-- Bytes of one instruction record. -/
def dInstrItem (i : Instruction) : List Nat :=
  w32 i.operation.opcode ++ (w32 i.o0 ++ (w32 i.o1 ++ w32 i.o2))

/-- Bytes of one output record. -/
def dOutItem (o : BOutput) : List Nat :=
  w32 (nameLenOf o.name) ++ w32 o.address

/-- Bytes of one triangle record. -/
def dTriItem (t : BTriangle) : List Nat :=
  w32 t.p0 ++ (w32 t.p1 ++ (w32 t.p2 ++ (w32 t.c0.1 ++ (w32 t.c0.2 ++
  (w32 t.c1.1 ++ (w32 t.c1.2 ++ (w32 t.c2.1 ++ w32 t.c2.2)))))))

/-- Bytes of one arc record. -/
def dArcItem (a : BArc) : List Nat :=
  w32 a.center ++ (w32 a.angularRange ++ w32 a.radii)

/-- Bytes of one cubic-curve record. -/
def dCubicItem (c : BCubic) : List Nat :=
  w32 c.p0 ++ (w32 c.p1 ++ (w32 c.p2 ++ w32 c.p3))

/-- Bytes of one quadratic-curve record. -/
def dQuadItem (q : BQuad) : List Nat :=
  w32 q.p0 ++ (w32 q.p1 ++ w32 q.p2)

/-- Bytes of one line record. -/
def dLineItem (l : BLine) : List Nat :=
  w32 l.p0 ++ w32 l.p1

/-- Bytes of one stroker record. -/
def dStrokerItem (s : BStroker) : List Nat :=
  w32 s.pattern ++ (w32 s.width ++ (w32 s.c0 ++ w32 s.c1))

/-- Flat `(step_type, index)*` word list of one path. -/
def pathRaw (steps : List (StepType × Nat)) : List Nat :=
  steps.flatMap fun s => [s.1.asU32, s.2]

/-- Bytes of one path record: step count then the flat word list. -/
def dPathItem (steps : List (StepType × Nat)) : List Nat :=
  w32 steps.length ++ (pathRaw steps).flatMap w32

/-- Bytes of one background record. -/
def dBgItem (bg : List Nat) : List Nat :=
  w32 bg.length ++ bg.flatMap w32

/-- Bytes of one rendering-step record. -/
def dStepItem : BRenderingStep → List Nat
  | .Clip p b => w32 0 ++ (w32 p ++ w32 b)
  | .Stroke p s => w32 1 ++ (w32 p ++ w32 s)

/-- One whole section: 32-bit count then the records. -/
def dSection (d : α → List Nat) (xs : List α) : List Nat :=
  w32 xs.length ++ xs.flatMap d

/-- The trailing string section: argument names then output names,
concatenated (unnamed entries contribute nothing). -/
def dNames (p : Program) : List Nat :=
  (p.arguments.flatMap fun a => a.name.getD []) ++
  (p.outputs.flatMap fun o => o.name.getD [])

/-- All bytes after the magic, sections in file order. -/
def dBody (p : Program) : List Nat :=
  dSection dArgItem p.arguments ++
  (dSection dInstrItem p.instructions ++
  (dSection dOutItem p.outputs ++
  (dSection dTriItem p.triangles ++
  (dSection dArcItem p.arcs ++
  (dSection dCubicItem p.cubicCurves ++
  (dSection dQuadItem p.quadraticCurves ++
  (dSection dLineItem p.lines ++
  (dSection dStrokerItem p.strokers ++
  (dSection dPathItem p.paths ++
  (dSection dBgItem p.backgrounds ++
  (dSection dStepItem p.renderingSteps ++
  dNames p)))))))))))

/-- Function `dump` from `src/format.rs` (the byte stream it writes). -/
def dump (p : Program) : List Nat :=
  MAGIC_BYTES ++ dBody p

/-! ## `size` (`src/format.rs`) and validation (`src/lib.rs`) -/

/-- Function `size` from `src/format.rs`: the predicted file size in bytes.
Each summand mirrors one statement of the source (note the source counts
4 u32 words per rendering step). -/
def size (p : Program) : Nat :=
  let u32s :=
    1 + p.arguments.length * 7 +
    (1 + p.instructions.length * 4) +
    (1 + p.outputs.length * 2) +
    (1 + p.triangles.length * 9) +
    (1 + p.arcs.length * 3) +
    (1 + p.cubicCurves.length * 4) +
    (1 + p.quadraticCurves.length * 3) +
    (1 + p.lines.length * 2) +
    (1 + p.strokers.length * 4) +
    (1 + p.renderingSteps.length * 4) +
    p.paths.foldl (fun a i => a + (1 + i.length * 2)) 1 +
    p.backgrounds.foldl (fun a i => a + (1 + i.length)) 1
  let nameBytes :=
    (p.arguments.map fun a => nameLenOf a.name).sum +
    (p.outputs.map fun o => nameLenOf o.name).sum
  MAGIC_BYTES.length + nameBytes + 4 * u32s

/-- Function `Program::file_size` from `src/lib.rs` (delegates to `size`). -/
def Program.fileSize (p : Program) : Nat := size p

/-- Function `inf` from `src/lib.rs`: succeed iff `a < b`. -/
def inf (a b : Nat) : Option Unit :=
  if a < b then some () else none

/-- Function `inf_s` from `src/lib.rs`: all elements strictly below the bound. -/
def infS (l : List Nat) (b : Nat) : Option Unit :=
  if l.all fun x => decide (x < b) then some () else none

/-- The instruction loop of `Program::valid`: each instruction's operands
must reference already-defined slots; `max` grows by one per instruction.
Returns the final `max` (the stack size). -/
def checkInstrs (mx : Nat) : List Instruction → Option Nat
  | [] => some mx
  | i :: rest => do
    let _ ← infS [i.o0, i.o1, i.o2] mx
    checkInstrs (mx + 1) rest

/-- One path step check of `Program::valid`: the primitive index is below
the matching primitive list's length. -/
def checkPathStep (p : Program) (s : StepType × Nat) : Option Unit :=
  inf s.2 (match s.1 with
    | .QuadraticCurve => p.quadraticCurves.length
    | .CubicCurve => p.cubicCurves.length
    | .Line => p.lines.length
    | .Arc => p.arcs.length)

/-- One rendering-step check of `Program::valid`. -/
def checkRenderingStep (p : Program) (s : BRenderingStep) : Option Unit := do
  let (i1, i2, mx) := match s with
    | .Clip i1 i2 => (i1, i2, p.backgrounds.length)
    | .Stroke i1 i2 => (i1, i2, p.strokers.length)
  let _ ← inf i1 p.paths.length
  inf i2 mx

/-- Sequence a validation over a list (the `collect::<Option<_>>` /
`for` loops of `Program::valid`). -/
def checkAll (f : α → Option Unit) : List α → Option Unit
  | [] => some ()
  | x :: rest => do
    let _ ← f x
    checkAll f rest

/-- Function `Program::valid` from `src/lib.rs`: every address checked against its
referent's cardinality. -/
def Program.valid (p : Program) : Option Unit := do
  let mx ← checkInstrs p.arguments.length p.instructions
  let _ ← checkAll (fun o => inf o.address mx) p.outputs
  let _ ← checkAll (fun a => infS [a.center, a.angularRange, a.radii] mx) p.arcs
  let _ ← checkAll (fun c => infS [c.p0, c.p1, c.p2, c.p3] mx) p.cubicCurves
  let _ ← checkAll (fun q => infS [q.p0, q.p1, q.p2] mx) p.quadraticCurves
  let _ ← checkAll (fun l => infS [l.p0, l.p1] mx) p.lines
  let _ ← checkAll (fun t => do
    let _ ← infS [t.p0, t.p1, t.p2] mx
    let _ ← infS [t.c0.1, t.c0.2] mx
    let _ ← infS [t.c1.1, t.c1.2] mx
    infS [t.c2.1, t.c2.2] mx) p.triangles
  let _ ← checkAll (fun s => do
    let _ ← infS [s.pattern, s.width] mx
    infS [s.c0, s.c1] mx) p.strokers
  let _ ← checkAll (fun steps => checkAll (checkPathStep p) steps) p.paths
  let _ ← checkAll (fun bg => checkAll (fun idx => inf idx p.triangles.length) bg) p.backgrounds
  checkAll (checkRenderingStep p) p.renderingSteps

/-- Function `Program::parse` from `src/lib.rs`: low-level parse, then the index
validation; a validation failure surfaces as `InvalidIndex`. -/
def Program.parseChecked (bytes : List Nat) : Except ParsingError Program :=
  match parse bytes with
  | .ok program =>
    match program.valid with
    | some _ => .ok program
    | none => .error .InvalidIndex
  | .error e => .error e

/-! ## Rust `==` on programs

`Program` derives `PartialEq` in Rust; every field is compared
structurally except `f32` values, which use IEEE-754 equality: `NaN`
equals nothing (itself included) and `+0.0 == -0.0`.  At the codec level
floats are bit patterns, so IEEE equality is bit equality with both zeros
identified, provided neither side is a NaN.  Floats occur only inside
arguments; every other field compares structurally. -/

/-- Is this 32-bit pattern an IEEE-754 binary32 NaN
(exponent all ones, nonzero mantissa)? -/
def isNan32 (b : Nat) : Bool :=
  decide (b / 2 ^ 23 % 256 = 255) && decide (b % 2 ^ 23 ≠ 0)

/-- Identify the two zero patterns (`-0.0` ↦ `+0.0`). -/
def canonZ (b : Nat) : Nat :=
  if b = 2 ^ 31 then 0 else b

/-- Rust `f32 == f32` on bit patterns. -/
def f32EqRust (a b : Nat) : Bool :=
  !isNan32 a && !isNan32 b && decide (canonZ a = canonZ b)

/-- Rust `Couple == Couple` at the codec level. -/
def coupleEqBits (c d : BCouple) : Bool :=
  f32EqRust c.x d.x && f32EqRust c.y d.y

/-- Rust `Argument == Argument`. -/
def argEqRust (a b : BArgument) : Bool :=
  decide (a.name = b.name) && coupleEqBits a.value b.value &&
  coupleEqBits a.rlo b.rlo && coupleEqBits a.rhi b.rhi

/-- Elementwise list equality with a custom element comparison. -/
def listEqWith (f : α → α → Bool) : List α → List α → Bool
  | [], [] => true
  | x :: xs, y :: ys => f x y && listEqWith f xs ys
  | _, _ => false

/-- Rust `Program == Program` (derived `PartialEq`). -/
def progEq (p q : Program) : Bool :=
  listEqWith argEqRust p.arguments q.arguments &&
  decide (p.instructions = q.instructions) &&
  decide (p.outputs = q.outputs) &&
  decide (p.arcs = q.arcs) &&
  decide (p.cubicCurves = q.cubicCurves) &&
  decide (p.quadraticCurves = q.quadraticCurves) &&
  decide (p.lines = q.lines) &&
  decide (p.triangles = q.triangles) &&
  decide (p.strokers = q.strokers) &&
  decide (p.paths = q.paths) &&
  decide (p.backgrounds = q.backgrounds) &&
  decide (p.renderingSteps = q.renderingSteps)

/-! ## Well-formedness bounds for the round trip

`dump` truncates every word to `u32`; a `Program` that round-trips must
keep all its numeric fields and list lengths inside `u32` range, its
names non-empty valid UTF-8 (an empty or absent name is stored as length
0, and parses back as absent), and (for Rust `==`) must hold no NaN. -/

/-- Name well-formedness: absent, or non-empty valid UTF-8 of `u32` length. -/
def nameOk : Option (List Nat) → Bool
  | none => true
  | some s => !s.isEmpty && utf8Valid s && decide (s.length < 2 ^ 32)

/-- Couple (bit-pattern) bound and NaN-freedom. -/
def wfCoupleBits (c : BCouple) : Bool :=
  decide (c.x < 2 ^ 32) && decide (c.y < 2 ^ 32) && !isNan32 c.x && !isNan32 c.y

/-- Argument record well-formedness. -/
def wfArg (a : BArgument) : Bool :=
  nameOk a.name && wfCoupleBits a.value && wfCoupleBits a.rlo && wfCoupleBits a.rhi

/-- Instruction record bounds. -/
def wfInstr (i : Instruction) : Bool :=
  decide (i.o0 < 2 ^ 32) && decide (i.o1 < 2 ^ 32) && decide (i.o2 < 2 ^ 32)

/-- Output record well-formedness. -/
def wfOut (o : BOutput) : Bool :=
  nameOk o.name && decide (o.address < 2 ^ 32)

/-- Triangle record bounds. -/
def wfTri (t : BTriangle) : Bool :=
  decide (t.p0 < 2 ^ 32) && decide (t.p1 < 2 ^ 32) && decide (t.p2 < 2 ^ 32) &&
  decide (t.c0.1 < 2 ^ 32) && decide (t.c0.2 < 2 ^ 32) &&
  decide (t.c1.1 < 2 ^ 32) && decide (t.c1.2 < 2 ^ 32) &&
  decide (t.c2.1 < 2 ^ 32) && decide (t.c2.2 < 2 ^ 32)

/-- Arc record bounds. -/
def wfArcB (a : BArc) : Bool :=
  decide (a.center < 2 ^ 32) && decide (a.angularRange < 2 ^ 32) && decide (a.radii < 2 ^ 32)

/-- Cubic record bounds. -/
def wfCubic (c : BCubic) : Bool :=
  decide (c.p0 < 2 ^ 32) && decide (c.p1 < 2 ^ 32) && decide (c.p2 < 2 ^ 32) && decide (c.p3 < 2 ^ 32)

/-- Quadratic record bounds. -/
def wfQuad (q : BQuad) : Bool :=
  decide (q.p0 < 2 ^ 32) && decide (q.p1 < 2 ^ 32) && decide (q.p2 < 2 ^ 32)

/-- Line record bounds. -/
def wfLine (l : BLine) : Bool :=
  decide (l.p0 < 2 ^ 32) && decide (l.p1 < 2 ^ 32)

/-- Stroker record bounds. -/
def wfStroker (s : BStroker) : Bool :=
  decide (s.pattern < 2 ^ 32) && decide (s.width < 2 ^ 32) &&
  decide (s.c0 < 2 ^ 32) && decide (s.c1 < 2 ^ 32)

/-- Path record bounds. -/
def wfPath (steps : List (StepType × Nat)) : Bool :=
  decide (steps.length < 2 ^ 32) && steps.all fun s => decide (s.2 < 2 ^ 32)

/-- Background record bounds. -/
def wfBg (bg : List Nat) : Bool :=
  decide (bg.length < 2 ^ 32) && bg.all fun i => decide (i < 2 ^ 32)

/-- Rendering-step record bounds. -/
def wfRStep : BRenderingStep → Bool
  | .Clip p b => decide (p < 2 ^ 32) && decide (b < 2 ^ 32)
  | .Stroke p s => decide (p < 2 ^ 32) && decide (s < 2 ^ 32)

/-! ## Round-trip machinery

`RT p a pre` says: parser `p` run on `pre ++ r` returns `a` and leaves
exactly `r`, for every continuation `r`. -/

/-- Parser `p` consumes exactly `pre` producing `a`. -/
def RT (p : P α) (a : α) (pre : List Nat) : Prop :=
  ∀ r, p (pre ++ r) = .ok (a, r)

/-- Round-trip well-formedness of a whole program. -/
def Program.wf (p : Program) : Bool :=
  decide (p.arguments.length < 2 ^ 32) && p.arguments.all wfArg &&
  decide (p.instructions.length < 2 ^ 32) && p.instructions.all wfInstr &&
  decide (p.outputs.length < 2 ^ 32) && p.outputs.all wfOut &&
  decide (p.triangles.length < 2 ^ 32) && p.triangles.all wfTri &&
  decide (p.arcs.length < 2 ^ 32) && p.arcs.all wfArcB &&
  decide (p.cubicCurves.length < 2 ^ 32) && p.cubicCurves.all wfCubic &&
  decide (p.quadraticCurves.length < 2 ^ 32) && p.quadraticCurves.all wfQuad &&
  decide (p.lines.length < 2 ^ 32) && p.lines.all wfLine &&
  decide (p.strokers.length < 2 ^ 32) && p.strokers.all wfStroker &&
  decide (p.paths.length < 2 ^ 32) && p.paths.all wfPath &&
  decide (p.backgrounds.length < 2 ^ 32) && p.backgrounds.all wfBg &&
  decide (p.renderingSteps.length < 2 ^ 32) && p.renderingSteps.all wfRStep

/-! ## §3 invariants as propositions

The invariant list of spec §3, stated directly over a decoded `Program`
(claim C3 relates them to `Program::parse`). -/

/-- All §3 invariants of a program. -/
def Invariants (p : Program) : Prop :=
  let stackSize := p.arguments.length + p.instructions.length
  (∀ i ∈ List.range p.instructions.length,
    ∀ o ∈ [(p.instructions.get! i).o0, (p.instructions.get! i).o1, (p.instructions.get! i).o2],
      o < p.arguments.length + i) ∧
  (∀ o ∈ p.outputs, o.address < stackSize) ∧
  (∀ a ∈ p.arcs, a.center < stackSize ∧ a.angularRange < stackSize ∧ a.radii < stackSize) ∧
  (∀ c ∈ p.cubicCurves, c.p0 < stackSize ∧ c.p1 < stackSize ∧ c.p2 < stackSize ∧ c.p3 < stackSize) ∧
  (∀ q ∈ p.quadraticCurves, q.p0 < stackSize ∧ q.p1 < stackSize ∧ q.p2 < stackSize) ∧
  (∀ l ∈ p.lines, l.p0 < stackSize ∧ l.p1 < stackSize) ∧
  (∀ t ∈ p.triangles,
    (t.p0 < stackSize ∧ t.p1 < stackSize ∧ t.p2 < stackSize) ∧
    t.c0.1 < stackSize ∧ t.c0.2 < stackSize ∧ t.c1.1 < stackSize ∧
    t.c1.2 < stackSize ∧ t.c2.1 < stackSize ∧ t.c2.2 < stackSize) ∧
  (∀ s ∈ p.strokers,
    s.pattern < stackSize ∧ s.width < stackSize ∧ s.c0 < stackSize ∧ s.c1 < stackSize) ∧
  (∀ steps ∈ p.paths, ∀ s ∈ steps,
    s.2 < (match s.1 with
      | .QuadraticCurve => p.quadraticCurves.length
      | .CubicCurve => p.cubicCurves.length
      | .Line => p.lines.length
      | .Arc => p.arcs.length)) ∧
  (∀ bg ∈ p.backgrounds, ∀ idx ∈ bg, idx < p.triangles.length) ∧
  (∀ s ∈ p.renderingSteps,
    match s with
    | .Clip i1 i2 => i1 < p.paths.length ∧ i2 < p.backgrounds.length
    | .Stroke i1 i2 => i1 < p.paths.length ∧ i2 < p.strokers.length)

/-! ## The value machine (`src/computing.rs`)

Scalar values are an exact surrogate of `f32`: a finite rational, two
infinities or NaN.  Arithmetic on finite values is exact (no rounding);
IEEE special-value propagation follows the `f32` rules (the surrogate has
a single zero, so signed-zero distinctions are not modelled).  The
transcendental functions used by `Polar1` / `Cartesian1` / `Cartesian2`
are parameters (`Transc`); no claim depends on their values. -/

/-- Exact surrogate of an `f32` value. -/
inductive Flt where
  | fin (q : ℚ)
  | pinf
  | ninf
  | nan
deriving DecidableEq, Repr

/-- Negation. -/
def fneg : Flt → Flt
  | .fin q => .fin (-q)
  | .pinf => .ninf
  | .ninf => .pinf
  | .nan => .nan

/-- Addition (`+` on `f32`, exact on finite values). -/
def fadd : Flt → Flt → Flt
  | .nan, _ => .nan
  | _, .nan => .nan
  | .fin p, .fin q => .fin (p + q)
  | .fin _, .pinf => .pinf
  | .fin _, .ninf => .ninf
  | .pinf, .fin _ => .pinf
  | .ninf, .fin _ => .ninf
  | .pinf, .pinf => .pinf
  | .ninf, .ninf => .ninf
  | .pinf, .ninf => .nan
  | .ninf, .pinf => .nan

/-- Subtraction (`a - b = a + (-b)` on IEEE values). -/
def fsub (a b : Flt) : Flt := fadd a (fneg b)

/-- Multiplication (`*` on `f32`, exact on finite values). -/
def fmul : Flt → Flt → Flt
  | .nan, _ => .nan
  | _, .nan => .nan
  | .fin p, .fin q => .fin (p * q)
  | .fin p, .pinf => if 0 < p then .pinf else if p < 0 then .ninf else .nan
  | .fin p, .ninf => if 0 < p then .ninf else if p < 0 then .pinf else .nan
  | .pinf, .fin q => if 0 < q then .pinf else if q < 0 then .ninf else .nan
  | .ninf, .fin q => if 0 < q then .ninf else if q < 0 then .pinf else .nan
  | .pinf, .pinf => .pinf
  | .pinf, .ninf => .ninf
  | .ninf, .pinf => .ninf
  | .ninf, .ninf => .pinf

/-- Division (`/` on `f32`, exact on finite values; the surrogate has one
zero, whose sign is positive). -/
def fdiv : Flt → Flt → Flt
  | .nan, _ => .nan
  | _, .nan => .nan
  | .fin p, .fin q =>
    if q ≠ 0 then .fin (p / q)
    else if 0 < p then .pinf
    else if p < 0 then .ninf
    else .nan
  | .fin _, .pinf => .fin 0
  | .fin _, .ninf => .fin 0
  | .pinf, .fin q => if 0 ≤ q then .pinf else .ninf
  | .ninf, .fin q => if 0 ≤ q then .ninf else .pinf
  | .pinf, .pinf => .nan
  | .pinf, .ninf => .nan
  | .ninf, .pinf => .nan
  | .ninf, .ninf => .nan

/-- The `Ordering` of two rationals (kernel-computable comparison). -/
def rcmp (p q : ℚ) : Ordering :=
  if p < q then .lt else if p = q then .eq else .gt

/-- Comparison `f32::partial_cmp`: `none` iff either side is NaN. -/
def pcmp : Flt → Flt → Option Ordering
  | .nan, _ => none
  | _, .nan => none
  | .fin p, .fin q => some (rcmp p q)
  | .fin _, .pinf => some .lt
  | .fin _, .ninf => some .gt
  | .pinf, .fin _ => some .gt
  | .ninf, .fin _ => some .lt
  | .pinf, .pinf => some .eq
  | .ninf, .ninf => some .eq
  | .pinf, .ninf => some .gt
  | .ninf, .pinf => some .lt

/-- Test `a < b` on `f32` values. -/
def fltLt (a b : Flt) : Bool :=
  match pcmp a b with
  | some .lt => true
  | _ => false

/-- Test `a > b` on `f32` values. -/
def fltGt (a b : Flt) : Bool :=
  match pcmp a b with
  | some .gt => true
  | _ => false

/-- Test `a == b` on `f32` values (false whenever either side is NaN). -/
def fltEq (a b : Flt) : Bool :=
  match pcmp a b with
  | some .eq => true
  | _ => false

/-- Function `f32::clamp` (for ordered, non-NaN bounds; a NaN input propagates). -/
def fclamp (a mn mx : Flt) : Flt :=
  if fltLt a mn then mn else if fltGt a mx then mx else a

/-- A runtime couple: two `f32` surrogate values (`Couple` in
`src/computing.rs`). -/
structure CoupleV where
  x : Flt
  y : Flt
deriving DecidableEq, Repr

/-- Constant `C_ZERO`. -/
def cZero : CoupleV := ⟨.fin 0, .fin 0⟩

/-- Rust `Couple == Couple` (componentwise `f32` equality). -/
def coupleEqF (a b : CoupleV) : Bool :=
  fltEq a.x b.x && fltEq a.y b.y

/-- The transcendental functions of the machine, left abstract. -/
structure Transc where
  sin : Flt → Flt
  cos : Flt → Flt
  atan2 : Flt → Flt → Flt
  sqrt : Flt → Flt

/-- A `Transc` instance for concrete witnesses (its values are never
relevant to any claim settled on concrete inputs). -/
def dummyTransc : Transc :=
  ⟨fun _ => .nan, fun _ => .nan, fun _ _ => .nan, fun _ => .nan⟩

/-- Helper `cartesian1` from `src/computing.rs`:
`sin_cos(a.x)` then `(cos * a.y, (-sin) * a.y)`. -/
def cartesian1 (t : Transc) (a : CoupleV) : CoupleV :=
  ⟨fmul (t.cos a.x) a.y, fmul (fneg (t.sin a.x)) a.y⟩

/-- Helper `add2` from `src/computing.rs`. -/
def add2 (a b : CoupleV) : CoupleV :=
  ⟨fadd a.x b.x, fadd a.y b.y⟩

/-- The free function `compute(instruction, operands)` from
`src/computing.rs`: evaluate one instruction on its three operand
couples. -/
def computeIns (t : Transc) (ins : Instruction) (a b c : CoupleV) : CoupleV :=
  match ins.operation with
  | .Add2 => add2 a b
  | .Subtract2 => ⟨fsub a.x b.x, fsub a.y b.y⟩
  | .Multiply2 => ⟨fmul a.x b.x, fmul a.y b.y⟩
  | .Divide2 => ⟨fdiv a.x b.x, fdiv a.y b.y⟩
  | .Select2 => ⟨a.x, b.y⟩
  | .EachX2 => ⟨a.x, b.x⟩
  | .EachY2 => ⟨a.y, b.y⟩
  | .Polar1 => ⟨t.atan2 (fneg a.y) a.x, t.sqrt (fadd (fmul a.x a.x) (fmul a.y a.y))⟩
  | .Cartesian1 => cartesian1 t a
  | .Cartesian2 => add2 (cartesian1 t a) b
  | .Inside3 =>
    match pcmp a.x b.x, pcmp a.y b.y, pcmp a.x c.x, pcmp a.y c.y with
    | some .gt, some .gt, some .lt, some .lt => ⟨.fin 1, .fin 0⟩
    | _, _, _, _ => ⟨.fin 0, .fin 1⟩
  | .Swap1 => ⟨a.y, a.x⟩
  | .Adjusted3 => ⟨fadd (fmul a.x c.x) (fmul b.x c.y), fadd (fmul a.y c.x) (fmul b.y c.y)⟩
  | .Clamp3 => ⟨fclamp a.x b.x c.x, fclamp a.y b.y c.y⟩

/-- Modelled from the spec: the §4.1 opcode table, written from the
spec's formulas (used as the reference side of the refinement claim C2;
`computeIns` above is the code side). -/
def specEval (t : Transc) (op : Operation) (a b c : CoupleV) : CoupleV :=
  match op with
  | .Add2 => ⟨fadd a.x b.x, fadd a.y b.y⟩
  | .Subtract2 => ⟨fsub a.x b.x, fsub a.y b.y⟩
  | .Multiply2 => ⟨fmul a.x b.x, fmul a.y b.y⟩
  | .Divide2 => ⟨fdiv a.x b.x, fdiv a.y b.y⟩
  | .Select2 => ⟨a.x, b.y⟩
  | .EachX2 => ⟨a.x, b.x⟩
  | .EachY2 => ⟨a.y, b.y⟩
  | .Polar1 => ⟨t.atan2 (fneg a.y) a.x, t.sqrt (fadd (fmul a.x a.x) (fmul a.y a.y))⟩
  | .Cartesian1 => ⟨fmul (t.cos a.x) a.y, fneg (fmul (t.sin a.x) a.y)⟩
  | .Cartesian2 => ⟨fadd (fmul (t.cos a.x) a.y) b.x, fadd (fneg (fmul (t.sin a.x) a.y)) b.y⟩
  | .Inside3 =>
    if fltLt b.x a.x && fltLt a.x c.x && fltLt b.y a.y && fltLt a.y c.y
    then ⟨.fin 1, .fin 0⟩ else ⟨.fin 0, .fin 1⟩
  | .Swap1 => ⟨a.y, a.x⟩
  | .Adjusted3 => ⟨fadd (fmul a.x c.x) (fmul b.x c.y), fadd (fmul a.y c.x) (fmul b.y c.y)⟩
  | .Clamp3 => ⟨fclamp a.x b.x c.x, fclamp a.y b.y c.y⟩

/-- The decoded view of a `SerializedProgram` as used by `compute`:
the argument count and the decoded instruction list.  (For any
successfully constructed `SerializedProgram`, `instruction(i)` with
`i < instructions()` is an infallible in-bounds record read, so the
instruction fetch is modelled as a list lookup.) -/
structure CProgram where
  argCount : Nat
  instructions : List Instruction
deriving DecidableEq, Repr

/-- Closure `get_op` inside `SerializedProgram::compute`:
`stack[..current].get(a).ok_or(InvalidOperation)` — reads only slots
strictly below `current`. -/
def getOperand (stack : List CoupleV) (current a : Nat) : Except ParsingError CoupleV :=
  match (stack.take current)[a]? with
  | some v => .ok v
  | none => .error .InvalidOperation

/-- The loop body of `SerializedProgram::compute`: for each instruction,
read the three operands from the already-defined prefix, evaluate, flag
the change bit when the result differs (Rust `!=`) from the slot's prior
content, and write the result at `current`. -/
def computeAux (t : Transc) :
    List Instruction → Nat → List CoupleV → Option (List Bool) →
      Except ParsingError (List CoupleV × Option (List Bool))
  | [], _, stack, changes => .ok (stack, changes)
  | ins :: rest, current, stack, changes =>
    match getOperand stack current ins.o0 with
    | .error e => .error e
    | .ok a =>
      match getOperand stack current ins.o1 with
      | .error e => .error e
      | .ok b =>
        match getOperand stack current ins.o2 with
        | .error e => .error e
        | .ok c =>
          let result := computeIns t ins a b c
          let changes2 :=
            if coupleEqF result (stack.getD current cZero) = false then
              changes.map fun ch => ch.set current true
            else changes
          computeAux t rest (current + 1) (stack.set current result) changes2

/-- Function `SerializedProgram::compute` from `src/computing.rs`. -/
def CProgram.compute (p : CProgram) (t : Transc) (stack : List CoupleV)
    (changes : Option (List Bool)) :
    Except ParsingError (List CoupleV × Option (List Bool)) :=
  computeAux t p.instructions p.argCount stack changes

/-- Modelled from the spec: the §4.1 evaluation loop in spec terms —
"for i in 0..instructions.len(), read the three operand slots, evaluate
per the table, write into stack[arguments.len()+i]" (reference side of
claim C2). -/
def specComputeAux (t : Transc) : List Instruction → Nat → List CoupleV → List CoupleV
  | [], _, stack => stack
  | ins :: rest, current, stack =>
    let a := stack.getD ins.o0 cZero
    let b := stack.getD ins.o1 cZero
    let c := stack.getD ins.o2 cZero
    specComputeAux t rest (current + 1) (stack.set current (specEval t ins.operation a b c))

/-- Spec §3 invariant 1 for a compute-level program: every operand of
instruction `i` references a slot strictly below `argCount + i`. -/
def Inv1 (p : CProgram) : Prop :=
  ∀ i ∈ List.range p.instructions.length,
    (p.instructions.get! i).o0 < p.argCount + i ∧
    (p.instructions.get! i).o1 < p.argCount + i ∧
    (p.instructions.get! i).o2 < p.argCount + i

/-! ## Renderer state (`src/rendering.rs`)

`NaiveRenderer` holds a program, the value stack, and the change bits.
The claims C7/C8 concern the name-lookup paths `output` and
`set_argument`; the decoded view keeps the argument and output tables
(for any constructed `SerializedProgram`, `argument(i)` / `output(i)`
with in-range `i` are infallible record reads).  The polyline and
triangle caches play no part in these claims and are omitted. -/

/-- Decoded `Argument` as the renderer reads it (value-level). -/
structure RArgument where
  name : Option (List Nat)
  value : CoupleV
deriving DecidableEq, Repr

/-- Decoded `Output`. -/
structure ROutput where
  name : Option (List Nat)
  address : Nat
deriving DecidableEq, Repr

/-- The program tables the renderer's lookup paths read. -/
structure RProgram where
  arguments : List RArgument
  outputs : List ROutput
deriving DecidableEq, Repr

/-- Type `NaiveRenderer` (stack and change bits). -/
structure NaiveRenderer where
  program : RProgram
  stack : List CoupleV
  stackChanges : List Bool
deriving DecidableEq, Repr

/-- Position of the first entry whose name matches, scanning with a
running index (the `for i in 0..count` search loops). -/
def findNamePos (nm : List Nat) : Nat → List (Option (List Nat)) → Option Nat
  | _, [] => none
  | i, n :: rest => if n = some nm then some i else findNamePos nm (i + 1) rest

/-- Function `NaiveRenderer::output` from `src/rendering.rs`: find the first
output whose name matches, then return `stack[p]` where `p` is the
position of that output **in the output table** (this is what the code
does — it does not read the entry's `address` field). -/
def NaiveRenderer.output (r : NaiveRenderer) (nm : List Nat) :
    Except ParsingError (Option CoupleV) :=
  match findNamePos nm 0 (r.program.outputs.map fun o => o.name) with
  | none => .ok none
  | some p => .ok (some (r.stack.getD p cZero))

/-- Modelled from the spec: `output(name)` "resolves via the Output
table", i.e. returns the stack couple at the **address stored in the
matching output entry** (reference side of claim C7). -/
def outputSpec (r : NaiveRenderer) (nm : List Nat) : Option CoupleV :=
  match r.program.outputs.find? fun o => o.name = some nm with
  | none => none
  | some o => some (r.stack.getD o.address cZero)

/-- The search-and-update loop of `NaiveRenderer::set_argument`: at the
first name match, write the value and flag the slot iff the value
differs (Rust `!=`); then stop. -/
def setArgLoop (nm : List Nat) (v : CoupleV) :
    Nat → List RArgument → List CoupleV → List Bool → List CoupleV × List Bool
  | _, [], stack, changes => (stack, changes)
  | i, a :: rest, stack, changes =>
    if a.name = some nm then
      if coupleEqF (stack.getD i cZero) v = false then
        (stack.set i v, changes.set i true)
      else (stack, changes)
    else setArgLoop nm v (i + 1) rest stack changes

/-- Function `NaiveRenderer::set_argument` from `src/rendering.rs`.  Note it
returns `Ok(())` in every case (there is no not-found signal); the
updated renderer is returned in place of Rust's in-place mutation. -/
def NaiveRenderer.setArgument (r : NaiveRenderer) (nm : List Nat) (v : CoupleV) :
    Except ParsingError NaiveRenderer :=
  let (stack2, changes2) := setArgLoop nm v 0 r.program.arguments r.stack r.stackChanges
  .ok { r with stack := stack2, stackChanges := changes2 }

/-! ## The compositor (`blend_pixel` in `src/rendering.rs`)

Pixels are RGBA8; all arithmetic is `u32` (exactly represented in `Nat`:
the intermediate products are far below `2^32`). -/

/-- An RGBA8 pixel. -/
structure Pixel where
  r : Nat
  g : Nat
  b : Nat
  a : Nat
deriving DecidableEq, Repr

/-! ## Concrete instances used by witnesses and counterexamples -/

/-- The empty program (`Program::new`). -/
def emptyProgram : Program :=
  ⟨[], [], [], [], [], [], [], [], [], [], [], []⟩

/-- Bytes of an empty file: magic plus twelve zero section counts. -/
def emptyBytes : List Nat :=
  MAGIC_BYTES ++ List.replicate 48 0

/-- A file with one (zeroed) argument and one instruction whose first
operand is `u32::MAX`: magic, argument section, instruction section
(opcode 0, operands `u32::MAX`, 0, 0), then ten empty sections. -/
def badOperandBytes : List Nat :=
  MAGIC_BYTES ++ w32 1 ++ List.replicate 28 0 ++
  w32 1 ++ w32 0 ++ w32 (2 ^ 32 - 1) ++ w32 0 ++ w32 0 ++
  List.replicate 40 0

/-- A program whose only argument carries the empty name `Some("")`
(a legal `Program` value; `dump` stores it as name length 0). -/
def emptyNameProgram : Program :=
  { emptyProgram with arguments := [⟨some [], ⟨0, 0⟩, ⟨0, 0⟩, ⟨0, 0⟩⟩] }

/-- A small named program: one argument `"A" = 1.0f32` bits, one
instruction, one named output, one line, one path, one stroker and one
stroke step. -/
def namedProgram : Program :=
  { arguments := [⟨some [65], ⟨1065353216, 1065353216⟩, ⟨0, 0⟩, ⟨1065353216, 0⟩⟩],
    instructions := [⟨.Multiply2, 0, 0, 0⟩],
    outputs := [⟨some [111], 1⟩],
    arcs := [],
    cubicCurves := [],
    quadraticCurves := [],
    lines := [⟨0, 1⟩],
    triangles := [],
    strokers := [⟨0, 0, 0, 1⟩],
    paths := [[(.Line, 0)]],
    backgrounds := [],
    renderingSteps := [.Stroke 0 0] }

/-- The claim-C4 failing input: one empty path, one empty background and
a single `Clip` rendering step. -/
def c4Program : Program :=
  { emptyProgram with paths := [[]], backgrounds := [[]], renderingSteps := [.Clip 0 0] }

/-- Compute-level program of the spec's Multiply2 example: slot 2 is
`Multiply2` of slots 0 and 1. -/
def mulProgram : CProgram :=
  ⟨2, [⟨.Multiply2, 0, 1, 0⟩]⟩

/-- Stack for the Multiply2 example: `size = (200, 200)`, the unit
top-left `(0.05, 0.05)`, and the slot to be computed. -/
def mulStack : List CoupleV :=
  [⟨.fin 200, .fin 200⟩, ⟨.fin (1 / 20), .fin (1 / 20)⟩, cZero]

/-- A tiny arithmetic-free program (one `Select2`), for witnesses. -/
def selProgram : CProgram :=
  ⟨1, [⟨.Select2, 0, 0, 0⟩]⟩

/-- Stack for `selProgram`. -/
def selStack : List CoupleV :=
  [⟨.fin 1, .fin 2⟩, cZero]

/-- A program whose single instruction has an out-of-range operand. -/
def oobProgram : CProgram :=
  ⟨1, [⟨.Select2, 1, 0, 0⟩]⟩

/-- Renderer state for claim C7: no arguments, one output named `"o"`
whose `address` is 1, stack `[(5,5), (7,7)]`. -/
def r7 : NaiveRenderer :=
  ⟨⟨[], [⟨some [111], 1⟩]⟩, [⟨.fin 5, .fin 5⟩, ⟨.fin 7, .fin 7⟩], [false, false]⟩

/-- Renderer state for claim C8: one argument named `"a"` with value
`(1, 1)` seeded in slot 0. -/
def r8 : NaiveRenderer :=
  ⟨⟨[⟨some [97], ⟨.fin 1, .fin 1⟩⟩], []⟩, [⟨.fin 1, .fin 1⟩], [false]⟩

/-- Function `blend_pixel` from `src/rendering.rs`. -/
def blendPixel (dst src : Pixel) (maskAlpha : Nat) (alphaBlendDst : Bool) : Pixel :=
  if src.a = 255 && maskAlpha = 255 then
    src
  else
    let srcAlpha := src.a * maskAlpha / 255
    let dstAlpha := 255 - srcAlpha
    if alphaBlendDst then
      { r := (src.r * srcAlpha + dst.r * dstAlpha) / 255,
        g := (src.g * srcAlpha + dst.g * dstAlpha) / 255,
        b := (src.b * srcAlpha + dst.b * dstAlpha) / 255,
        a := (src.a * srcAlpha + dst.a * dstAlpha) / 255 }
    else
      { r := src.r * srcAlpha / 255,
        g := src.g * srcAlpha / 255,
        b := src.b * srcAlpha / 255,
        a := src.a * srcAlpha / 255 }

/-! # Theorems

## Round-trip machinery lemmas -/

theorem rt_congr2 {p : P α} {a b : α} {pre pre2 : List Nat}
    (h : RT p a pre) (hab : a = b) (hpre : pre = pre2) : RT p b pre2 :=
  hab ▸ hpre ▸ h

theorem rt_bind {p : P α} {f : α → P β} {a : α} {b : β} {pre1 pre2 : List Nat}
    (h1 : RT p a pre1) (h2 : RT (f a) b pre2) : RT (pbind p f) b (pre1 ++ pre2) := by
  intro r
  rw [List.append_assoc]
  simp only [pbind, h1 (pre2 ++ r)]
  exact h2 r

theorem rt_pure (a : α) : RT (ppure a) a [] := fun _ => rfl

theorem rt_plift {x : Except ParsingError α} {a : α} (h : x = .ok a) :
    RT (plift x) a [] := by
  intro r
  simp [plift, h]

theorem pU32_w32 (n : Nat) (r : List Nat) : pU32 (w32 n ++ r) = .ok (n % 2 ^ 32, r) := by
  have h : ((n / 2 ^ 24 % 256 * 256 + n / 2 ^ 16 % 256) * 256 + n / 2 ^ 8 % 256) * 256
      + n % 256 = n % 2 ^ 32 := by omega
  simp only [w32, List.cons_append, List.nil_append, pU32, h]

theorem rt_u32 {n : Nat} (h : n < 2 ^ 32) : RT pU32 n (w32 n) := by
  intro r
  rw [pU32_w32, Nat.mod_eq_of_lt h]

theorem rt_bytes (xs : List Nat) : RT (pBytes xs.length) xs xs := by
  intro r
  simp [pBytes, List.take_left, List.drop_left, List.length_append, Nat.le_add_right]

theorem rt_listN {p : P α} {g : β → α} {d : β → List Nat} :
    ∀ xs : List β, (∀ x ∈ xs, RT p (g x) (d x)) →
      RT (pListN p xs.length) (xs.map g) (xs.flatMap d)
  | [], _ => by
    intro r
    rfl
  | x :: xs, h => by
    have h1 := h x (List.mem_cons_self x xs)
    have h2 := rt_listN xs fun y hy => h y (List.mem_cons_of_mem x hy)
    intro r
    show pListN p (xs.length + 1) ((x :: xs).flatMap d ++ r) = .ok ((x :: xs).map g, r)
    simp only [pListN, List.flatMap_cons, List.append_assoc, List.map_cons]
    simp only [pbind, h1 (xs.flatMap d ++ r), h2 r, ppure]

theorem rt_listN_id {p : P α} {d : α → List Nat} (xs : List α)
    (h : ∀ x ∈ xs, RT p x (d x)) :
    RT (pListN p xs.length) xs (xs.flatMap d) := by
  have h2 : ∀ x ∈ xs, RT p (id x) (d x) := h
  have h3 := rt_listN xs h2
  simpa using h3

theorem nameLenOf_lt {nm : Option (List Nat)} (h : nameOk nm = true) :
    nameLenOf nm < 2 ^ 32 := by
  cases nm with
  | none => simp [nameLenOf]
  | some s =>
    simp only [nameOk, Bool.and_eq_true, decide_eq_true_eq] at h
    simpa [nameLenOf] using h.2

theorem OPERATIONS_get (op : Operation) : OPERATIONS[op.opcode]? = some op := by
  cases op <;> rfl

theorem opcode_lt (op : Operation) : op.opcode < 2 ^ 32 := by
  cases op <;> simp [Operation.opcode]

theorem STEP_TYPES_get (st : StepType) : STEP_TYPES[st.asU32]? = some st := by
  cases st <;> rfl

theorem asU32_lt (st : StepType) : st.asU32 < 2 ^ 32 := by
  cases st <;> simp [StepType.asU32]

/-! ## Per-record round trips -/

theorem rt_argRec {a : BArgument} (h : wfArg a = true) :
    RT pArgRec (nameLenOf a.name, { a with name := none }) (dArgItem a) := by
  simp only [wfArg, wfCoupleBits, Bool.and_eq_true, and_assoc, decide_eq_true_eq] at h
  obtain ⟨hn, hvx, hvy, -, -, hlx, hly, -, -, hhx, hhy, -, -⟩ := h
  have hlen := nameLenOf_lt hn
  intro r
  simp only [pArgRec, dArgItem, List.append_assoc, pbind, pU32_w32, ppure,
    Nat.mod_eq_of_lt hlen, Nat.mod_eq_of_lt hvx, Nat.mod_eq_of_lt hvy,
    Nat.mod_eq_of_lt hlx, Nat.mod_eq_of_lt hly, Nat.mod_eq_of_lt hhx,
    Nat.mod_eq_of_lt hhy]

theorem rt_instruction {i : Instruction} (h : wfInstr i = true) :
    RT pInstruction i (dInstrItem i) := by
  simp only [wfInstr, Bool.and_eq_true, and_assoc, decide_eq_true_eq] at h
  obtain ⟨h0, h1, h2⟩ := h
  intro r
  simp only [pInstruction, dInstrItem, List.append_assoc, pbind, pU32_w32, ppure,
    plift, Nat.mod_eq_of_lt (opcode_lt i.operation), OPERATIONS_get, Option.elim,
    Nat.mod_eq_of_lt h0, Nat.mod_eq_of_lt h1, Nat.mod_eq_of_lt h2]

theorem rt_outRec {o : BOutput} (h : wfOut o = true) :
    RT pOutRec (nameLenOf o.name, { o with name := none }) (dOutItem o) := by
  simp only [wfOut, Bool.and_eq_true, and_assoc, decide_eq_true_eq] at h
  obtain ⟨hn, ha⟩ := h
  have hlen := nameLenOf_lt hn
  intro r
  simp only [pOutRec, dOutItem, List.append_assoc, pbind, pU32_w32, ppure,
    Nat.mod_eq_of_lt hlen, Nat.mod_eq_of_lt ha]

theorem rt_triangle {t : BTriangle} (h : wfTri t = true) :
    RT pTriangle t (dTriItem t) := by
  simp only [wfTri, Bool.and_eq_true, and_assoc, decide_eq_true_eq] at h
  obtain ⟨h0, h1, h2, h3, h4, h5, h6, h7, h8⟩ := h
  intro r
  simp only [pTriangle, dTriItem, List.append_assoc, pbind, pU32_w32, ppure,
    Nat.mod_eq_of_lt h0, Nat.mod_eq_of_lt h1, Nat.mod_eq_of_lt h2,
    Nat.mod_eq_of_lt h3, Nat.mod_eq_of_lt h4, Nat.mod_eq_of_lt h5,
    Nat.mod_eq_of_lt h6, Nat.mod_eq_of_lt h7, Nat.mod_eq_of_lt h8]

theorem rt_arc {a : BArc} (h : wfArcB a = true) :
    RT pArc a (dArcItem a) := by
  simp only [wfArcB, Bool.and_eq_true, and_assoc, decide_eq_true_eq] at h
  obtain ⟨h0, h1, h2⟩ := h
  intro r
  simp only [pArc, dArcItem, List.append_assoc, pbind, pU32_w32, ppure,
    Nat.mod_eq_of_lt h0, Nat.mod_eq_of_lt h1, Nat.mod_eq_of_lt h2]

theorem rt_cubic {c : BCubic} (h : wfCubic c = true) :
    RT pCubic c (dCubicItem c) := by
  simp only [wfCubic, Bool.and_eq_true, and_assoc, decide_eq_true_eq] at h
  obtain ⟨h0, h1, h2, h3⟩ := h
  intro r
  simp only [pCubic, dCubicItem, List.append_assoc, pbind, pU32_w32, ppure,
    Nat.mod_eq_of_lt h0, Nat.mod_eq_of_lt h1, Nat.mod_eq_of_lt h2, Nat.mod_eq_of_lt h3]

theorem rt_quad {q : BQuad} (h : wfQuad q = true) :
    RT pQuad q (dQuadItem q) := by
  simp only [wfQuad, Bool.and_eq_true, and_assoc, decide_eq_true_eq] at h
  obtain ⟨h0, h1, h2⟩ := h
  intro r
  simp only [pQuad, dQuadItem, List.append_assoc, pbind, pU32_w32, ppure,
    Nat.mod_eq_of_lt h0, Nat.mod_eq_of_lt h1, Nat.mod_eq_of_lt h2]

theorem rt_line {l : BLine} (h : wfLine l = true) :
    RT pLine l (dLineItem l) := by
  simp only [wfLine, Bool.and_eq_true, and_assoc, decide_eq_true_eq] at h
  obtain ⟨h0, h1⟩ := h
  intro r
  simp only [pLine, dLineItem, List.append_assoc, pbind, pU32_w32, ppure,
    Nat.mod_eq_of_lt h0, Nat.mod_eq_of_lt h1]

theorem rt_stroker {s : BStroker} (h : wfStroker s = true) :
    RT pStroker s (dStrokerItem s) := by
  simp only [wfStroker, Bool.and_eq_true, and_assoc, decide_eq_true_eq] at h
  obtain ⟨h0, h1, h2, h3⟩ := h
  intro r
  simp only [pStroker, dStrokerItem, List.append_assoc, pbind, pU32_w32, ppure,
    Nat.mod_eq_of_lt h0, Nat.mod_eq_of_lt h1, Nat.mod_eq_of_lt h2, Nat.mod_eq_of_lt h3]

theorem rt_rstep {s : BRenderingStep} (h : wfRStep s = true) :
    RT pRenderingStep s (dStepItem s) := by
  cases s with
  | Clip p b =>
    simp only [wfRStep, Bool.and_eq_true, decide_eq_true_eq] at h
    obtain ⟨hp, hb⟩ := h
    intro r
    simp only [pRenderingStep, dStepItem, List.append_assoc, pbind, pU32_w32, ppure,
      Nat.mod_eq_of_lt hp, Nat.mod_eq_of_lt hb]
    norm_num [ppure]
  | Stroke p st =>
    simp only [wfRStep, Bool.and_eq_true, decide_eq_true_eq] at h
    obtain ⟨hp, hs⟩ := h
    intro r
    simp only [pRenderingStep, dStepItem, List.append_assoc, pbind, pU32_w32, ppure,
      Nat.mod_eq_of_lt hp, Nat.mod_eq_of_lt hs]
    norm_num [ppure]

theorem pathRaw_length (steps : List (StepType × Nat)) :
    (pathRaw steps).length = steps.length * 2 := by
  induction steps with
  | nil => rfl
  | cons s rest ih =>
    simp only [pathRaw, List.flatMap_cons] at *
    simp [ih]
    omega

theorem pathRaw_cons (s : StepType × Nat) (rest : List (StepType × Nat)) :
    pathRaw (s :: rest) = s.1.asU32 :: s.2 :: pathRaw rest := rfl

theorem pathRaw_mem_lt {steps : List (StepType × Nat)}
    (h : ∀ s ∈ steps, s.2 < 2 ^ 32) : ∀ n ∈ pathRaw steps, n < 2 ^ 32 := by
  induction steps with
  | nil => simp [pathRaw]
  | cons s rest ih =>
    intro n hn
    rw [pathRaw_cons, List.mem_cons, List.mem_cons] at hn
    rcases hn with rfl | rfl | h3
    · exact asU32_lt s.1
    · exact h s (List.mem_cons_self s rest)
    · exact ih (fun x hx => h x (List.mem_cons_of_mem s hx)) n h3

theorem decodeSteps_pathRaw (steps : List (StepType × Nat)) :
    decodeSteps (pathRaw steps) = .ok steps := by
  induction steps with
  | nil => rfl
  | cons s rest ih =>
    rw [pathRaw_cons]
    simp [decodeSteps, STEP_TYPES_get s.1, ih, Except.map]

theorem rt_path {steps : List (StepType × Nat)} (h : wfPath steps = true) :
    RT pPath steps (dPathItem steps) := by
  simp only [wfPath, Bool.and_eq_true, decide_eq_true_eq, List.all_eq_true] at h
  obtain ⟨hlen, hall⟩ := h
  have hall2 : ∀ s ∈ steps, s.2 < 2 ^ 32 := fun s hs => by
    simpa using hall s hs
  have hL := rt_listN_id (pathRaw steps) fun n hn => rt_u32 (pathRaw_mem_lt hall2 n hn)
  rw [pathRaw_length] at hL
  intro r
  simp only [pPath, dPathItem, List.append_assoc, pbind, pU32_w32,
    Nat.mod_eq_of_lt hlen, hL r, plift, decodeSteps_pathRaw]

theorem rt_background {bg : List Nat} (h : wfBg bg = true) :
    RT pBackground bg (dBgItem bg) := by
  simp only [wfBg, Bool.and_eq_true, decide_eq_true_eq, List.all_eq_true] at h
  obtain ⟨hlen, hall⟩ := h
  have hL := rt_listN_id bg fun n hn => rt_u32 (by simpa using hall n hn)
  intro r
  simp only [pBackground, dBgItem, List.append_assoc, pbind, pU32_w32,
    Nat.mod_eq_of_lt hlen, hL r]

/-! ## Name-section round trips -/

theorem nameLenOf_some (s : List Nat) : nameLenOf (some s) = s.length := rfl

theorem nameLenOf_none : nameLenOf none = 0 := rfl

theorem nameOk_some {s : List Nat} (h : nameOk (some s) = true) :
    s.length ≠ 0 ∧ utf8Valid s = true := by
  simp only [nameOk, Bool.and_eq_true, and_assoc, decide_eq_true_eq,
    Bool.not_eq_true'] at h
  refine ⟨?_, h.2.1⟩
  intro hlen
  cases s with
  | nil => simp at h
  | cons x xs => simp at hlen

theorem rt_fillArgs :
    ∀ as_ : List BArgument, (∀ a ∈ as_, nameOk a.name = true) →
      RT (fillArgNames (as_.map fun a => (nameLenOf a.name, { a with name := none })))
        as_ (as_.flatMap fun a => a.name.getD [])
  | [], _ => by
    intro r
    rfl
  | a :: rest, h => by
    have hrest := rt_fillArgs rest fun x hx => h x (List.mem_cons_of_mem _ hx)
    have ha := h _ (List.mem_cons_self a rest)
    obtain ⟨nm, v, lo, hi⟩ := a
    cases nm with
    | none =>
      intro r
      simp only [List.map_cons, List.flatMap_cons, nameLenOf_none, Option.getD_none,
        List.nil_append, fillArgNames, ne_eq, not_true_eq_false, if_false]
      simp only [pbind, hrest r, ppure]
    | some s =>
      obtain ⟨hne, hutf⟩ := nameOk_some ha
      intro r
      simp only [List.map_cons, List.flatMap_cons, nameLenOf_some, Option.getD_some,
        fillArgNames]
      rw [if_pos hne]
      simp only [List.append_assoc, pbind,
        rt_bytes s ((rest.flatMap fun a => a.name.getD []) ++ r), hutf, if_true]
      simp only [pbind, hrest r, ppure]

theorem rt_fillOuts :
    ∀ os : List BOutput, (∀ o ∈ os, nameOk o.name = true) →
      RT (fillOutNames (os.map fun o => (nameLenOf o.name, { o with name := none })))
        os (os.flatMap fun o => o.name.getD [])
  | [], _ => by
    intro r
    rfl
  | o :: rest, h => by
    have hrest := rt_fillOuts rest fun x hx => h x (List.mem_cons_of_mem _ hx)
    have ho := h _ (List.mem_cons_self o rest)
    obtain ⟨nm, addr⟩ := o
    cases nm with
    | none =>
      intro r
      simp only [List.map_cons, List.flatMap_cons, nameLenOf_none, Option.getD_none,
        List.nil_append, fillOutNames, ne_eq, not_true_eq_false, if_false]
      simp only [pbind, hrest r, ppure]
    | some s =>
      obtain ⟨hne, hutf⟩ := nameOk_some ho
      intro r
      simp only [List.map_cons, List.flatMap_cons, nameLenOf_some, Option.getD_some,
        fillOutNames]
      rw [if_pos hne]
      simp only [List.append_assoc, pbind,
        rt_bytes s ((rest.flatMap fun o => o.name.getD []) ++ r), hutf, if_true]
      simp only [pbind, hrest r, ppure]

/-! ## The full round trip -/

theorem wfArg_nameOk {a : BArgument} (h : wfArg a = true) : nameOk a.name = true := by
  simp only [wfArg, Bool.and_eq_true, and_assoc] at h
  exact h.1

theorem wfOut_nameOk {o : BOutput} (h : wfOut o = true) : nameOk o.name = true := by
  simp only [wfOut, Bool.and_eq_true, and_assoc] at h
  exact h.1

theorem rt_parseBody {p : Program} (h : p.wf = true) : RT parseBody p (dBody p) := by
  simp only [Program.wf, Bool.and_eq_true, and_assoc, decide_eq_true_eq,
    List.all_eq_true] at h
  obtain ⟨hAl, hA, hIl, hI, hOl, hO, hTl, hT, hRl, hR, hCl, hC, hQl, hQ, hLl, hL,
    hSl, hS, hPl, hP, hBl, hB, hStl, hSt⟩ := h
  have rA := rt_listN p.arguments fun a ha => rt_argRec (hA a ha)
  have rI := rt_listN_id p.instructions fun i hi => rt_instruction (hI i hi)
  have rO := rt_listN p.outputs fun o ho => rt_outRec (hO o ho)
  have rT := rt_listN_id p.triangles fun t ht => rt_triangle (hT t ht)
  have rR := rt_listN_id p.arcs fun a ha => rt_arc (hR a ha)
  have rC := rt_listN_id p.cubicCurves fun c hc => rt_cubic (hC c hc)
  have rQ := rt_listN_id p.quadraticCurves fun q hq => rt_quad (hQ q hq)
  have rL := rt_listN_id p.lines fun l hl => rt_line (hL l hl)
  have rS := rt_listN_id p.strokers fun s hs => rt_stroker (hS s hs)
  have rP := rt_listN_id p.paths fun s hs => rt_path (hP s hs)
  have rB := rt_listN_id p.backgrounds fun b hb => rt_background (hB b hb)
  have rSt := rt_listN_id p.renderingSteps fun s hs => rt_rstep (hSt s hs)
  have rFA := rt_fillArgs p.arguments fun a ha => wfArg_nameOk (hA a ha)
  have rFO := rt_fillOuts p.outputs fun o ho => wfOut_nameOk (hO o ho)
  simp only [RT] at rA rI rO rT rR rC rQ rL rS rP rB rSt rFA rFO
  intro r
  simp only [parseBody, dBody, dSection, dNames, List.append_assoc]
  simp only [pbind, pU32_w32, Nat.mod_eq_of_lt hAl, Nat.mod_eq_of_lt hIl,
    Nat.mod_eq_of_lt hOl, Nat.mod_eq_of_lt hTl, Nat.mod_eq_of_lt hRl,
    Nat.mod_eq_of_lt hCl, Nat.mod_eq_of_lt hQl, Nat.mod_eq_of_lt hLl,
    Nat.mod_eq_of_lt hSl, Nat.mod_eq_of_lt hPl, Nat.mod_eq_of_lt hBl,
    Nat.mod_eq_of_lt hStl, rA, rI, rO, rT, rR, rC, rQ, rL, rS, rP, rB, rSt,
    rFA, rFO, ppure]

theorem parse_dump {p : Program} (h : p.wf = true) : parse (dump p) = .ok p := by
  have hb := rt_parseBody h []
  rw [List.append_nil] at hb
  have e : dump p = 82 :: 87 :: 89 :: 48 :: dBody p := rfl
  rw [e]
  show (match parseBody (dBody p) with
    | .ok (q, _) => Except.ok q
    | .error e => .error e) = .ok p
  rw [hb]

/-! ## Value-machine lemmas -/

theorem rcmp_lt {p q : ℚ} : rcmp p q = .lt ↔ p < q := by
  rcases lt_trichotomy p q with h | h | h
  · simp [rcmp, h]
  · simp [rcmp, h, lt_irrefl]
  · simp only [rcmp, if_neg (asymm h), if_neg (ne_of_gt h)]
    simp [asymm h]

theorem rcmp_gt {p q : ℚ} : rcmp p q = .gt ↔ q < p := by
  rcases lt_trichotomy p q with h | h | h
  · simp [rcmp, h, asymm h]
  · simp [rcmp, h, lt_irrefl]
  · simp only [rcmp, if_neg (asymm h), if_neg (ne_of_gt h)]
    simp [h]

theorem pcmp_gt_iff {a b : Flt} : pcmp a b = some .gt ↔ pcmp b a = some .lt := by
  cases a <;> cases b <;> simp [pcmp, rcmp_gt, rcmp_lt]

theorem rcmp_of_lt {p q : ℚ} (h : p < q) : rcmp p q = .lt := by
  simp [rcmp, h]

theorem rcmp_of_eq {p q : ℚ} (h : p = q) : rcmp p q = .eq := by
  simp [rcmp, h, lt_irrefl]

theorem rcmp_of_gt {p q : ℚ} (h : q < p) : rcmp p q = .gt := by
  simp [rcmp, asymm h, ne_of_gt h]

theorem fltGt_eq_fltLt (a b : Flt) : fltGt a b = fltLt b a := by
  cases a <;> cases b <;> try rfl
  rename_i p q
  rcases lt_trichotomy p q with h | h | h
  · simp [fltGt, fltLt, pcmp, rcmp_of_lt h, rcmp_of_gt h]
  · simp [fltGt, fltLt, pcmp, rcmp_of_eq h, rcmp_of_eq h.symm]
  · simp [fltGt, fltLt, pcmp, rcmp_of_gt h, rcmp_of_lt h]

theorem fneg_fmul (a b : Flt) : fmul (fneg a) b = fneg (fmul a b) := by
  cases a <;> cases b <;> simp only [fmul, fneg] <;> try rfl
  all_goals first
    | · rename_i p q
        simp [neg_mul]
    | · rename_i p
        rcases lt_trichotomy p 0 with h | rfl | h
        · simp [apply_ite fneg, fneg, h, asymm h, neg_pos, neg_lt_zero]
        · simp [apply_ite fneg, fneg, neg_zero, lt_irrefl]
        · simp [apply_ite fneg, fneg, h, asymm h, neg_pos, neg_lt_zero]

theorem option_ordering_cases (o : Option Ordering) :
    o = none ∨ o = some .lt ∨ o = some .eq ∨ o = some .gt := by
  rcases o with _ | o2
  · exact .inl rfl
  · cases o2
    · exact .inr (.inl rfl)
    · exact .inr (.inr (.inl rfl))
    · exact .inr (.inr (.inr rfl))

theorem inside3_match (p1 p2 p3 p4 : Option Ordering) (R1 R2 : CoupleV) :
    (match p1, p2, p3, p4 with
      | some Ordering.gt, some Ordering.gt, some Ordering.lt, some Ordering.lt => R1
      | _, _, _, _ => R2) =
    if p1 = some .gt ∧ p2 = some .gt ∧ p3 = some .lt ∧ p4 = some .lt then R1 else R2 := by
  rcases option_ordering_cases p1 with rfl | rfl | rfl | rfl <;>
    rcases option_ordering_cases p2 with rfl | rfl | rfl | rfl <;>
    rcases option_ordering_cases p3 with rfl | rfl | rfl | rfl <;>
    rcases option_ordering_cases p4 with rfl | rfl | rfl | rfl <;>
    simp

theorem fltLt_iff_pcmp {a b : Flt} : fltLt a b = true ↔ pcmp a b = some .lt := by
  unfold fltLt
  rcases option_ordering_cases (pcmp a b) with h | h | h | h <;> rw [h] <;> simp

theorem computeIns_eq_specEval (t : Transc) (ins : Instruction) (a b c : CoupleV) :
    computeIns t ins a b c = specEval t ins.operation a b c := by
  cases h : ins.operation <;> simp only [computeIns, specEval, h, add2, cartesian1]
  · rw [fneg_fmul]
  · rw [fneg_fmul]
  · rw [inside3_match]
    have e1 : fltLt b.x a.x = true ↔ pcmp a.x b.x = some .gt := by
      rw [fltLt_iff_pcmp, pcmp_gt_iff]
    have e2 : fltLt b.y a.y = true ↔ pcmp a.y b.y = some .gt := by
      rw [fltLt_iff_pcmp, pcmp_gt_iff]
    have e3 : fltLt a.x c.x = true ↔ pcmp a.x c.x = some .lt := fltLt_iff_pcmp
    have e4 : fltLt a.y c.y = true ↔ pcmp a.y c.y = some .lt := fltLt_iff_pcmp
    have hiff : (pcmp a.x b.x = some .gt ∧ pcmp a.y b.y = some .gt ∧
        pcmp a.x c.x = some .lt ∧ pcmp a.y c.y = some .lt) ↔
        (fltLt b.x a.x && fltLt a.x c.x && fltLt b.y a.y && fltLt a.y c.y) = true := by
      rw [Bool.and_eq_true, Bool.and_eq_true, Bool.and_eq_true]
      constructor
      · rintro ⟨g1, g2, g3, g4⟩
        exact ⟨⟨⟨e1.mpr g1, e3.mpr g3⟩, e2.mpr g2⟩, e4.mpr g4⟩
      · rintro ⟨⟨⟨f1, f2⟩, f3⟩, f4⟩
        exact ⟨e1.mp f1, e2.mp f3, e3.mp f2, e4.mp f4⟩
    exact if_congr hiff rfl rfl

/-! ## Compute-loop lemmas -/

theorem getOperand_eq (stack : List CoupleV) (cur a : Nat) :
    getOperand stack cur a =
      if a < min cur stack.length then .ok (stack.getD a cZero)
      else .error .InvalidOperation := by
  by_cases h : a < min cur stack.length
  · have h1 : a < cur := lt_of_lt_of_le h (min_le_left _ _)
    have h2 : a < stack.length := lt_of_lt_of_le h (min_le_right _ _)
    unfold getOperand
    rw [List.getElem?_take_of_lt h1, List.getElem?_eq_getElem h2, if_pos h]
    simp [List.getD_eq_getElem?_getD, List.getElem?_eq_getElem h2]
  · have hl : (stack.take cur).length ≤ a := by
      simp only [List.length_take]
      omega
    unfold getOperand
    rw [List.getElem?_eq_none hl, if_neg h]

theorem computeAux_cons (t : Transc) (ins : Instruction) (rest : List Instruction)
    (cur : Nat) (stack : List CoupleV) (ch : Option (List Bool))
    (h0 : ins.o0 < min cur stack.length) (h1 : ins.o1 < min cur stack.length)
    (h2 : ins.o2 < min cur stack.length) :
    computeAux t (ins :: rest) cur stack ch =
      computeAux t rest (cur + 1)
        (stack.set cur (computeIns t ins (stack.getD ins.o0 cZero)
          (stack.getD ins.o1 cZero) (stack.getD ins.o2 cZero)))
        (if coupleEqF (computeIns t ins (stack.getD ins.o0 cZero)
              (stack.getD ins.o1 cZero) (stack.getD ins.o2 cZero))
            (stack.getD cur cZero) = false
          then ch.map fun c => c.set cur true else ch) := by
  conv_lhs => rw [computeAux]
  rw [getOperand_eq, if_pos h0, getOperand_eq, if_pos h1, getOperand_eq, if_pos h2]

theorem computeAux_cons_err (t : Transc) (ins : Instruction) (rest : List Instruction)
    (cur : Nat) (stack : List CoupleV) (ch : Option (List Bool))
    (h : ¬(ins.o0 < min cur stack.length ∧ ins.o1 < min cur stack.length ∧
          ins.o2 < min cur stack.length)) :
    computeAux t (ins :: rest) cur stack ch = .error .InvalidOperation := by
  conv_lhs => rw [computeAux]
  rw [getOperand_eq, getOperand_eq, getOperand_eq]
  split_ifs with h0 h1 h2 <;> simp_all

theorem bounds_cons {ins : Instruction} {rest : List Instruction} {cur : Nat} :
    (∀ i ∈ List.range (ins :: rest).length,
        ((ins :: rest).get! i).o0 < cur + i ∧ ((ins :: rest).get! i).o1 < cur + i ∧
        ((ins :: rest).get! i).o2 < cur + i) ↔
      (ins.o0 < cur ∧ ins.o1 < cur ∧ ins.o2 < cur) ∧
      (∀ i ∈ List.range rest.length,
        (rest.get! i).o0 < cur + 1 + i ∧ (rest.get! i).o1 < cur + 1 + i ∧
        (rest.get! i).o2 < cur + 1 + i) := by
  constructor
  · intro h
    refine ⟨by simpa using h 0 (by simp), fun i hi => ?_⟩
    have hmem : i + 1 ∈ List.range (ins :: rest).length := by
      simp only [List.mem_range] at hi ⊢
      simpa using Nat.succ_lt_succ hi
    have h2 := h (i + 1) hmem
    have e : (ins :: rest).get! (i + 1) = rest.get! i := rfl
    rw [e] at h2
    obtain ⟨a1, a2, a3⟩ := h2
    exact ⟨by omega, by omega, by omega⟩
  · rintro ⟨⟨b0, b1, b2⟩, hrest⟩ i hi
    cases i with
    | zero => simpa using ⟨b0, b1, b2⟩
    | succ j =>
      have hj : j ∈ List.range rest.length := by
        simp only [List.mem_range, List.length_cons] at hi ⊢
        omega
      have e : (ins :: rest).get! (j + 1) = rest.get! j := rfl
      rw [e]
      obtain ⟨a1, a2, a3⟩ := hrest j hj
      exact ⟨by omega, by omega, by omega⟩

theorem specComputeAux_cons (t : Transc) (ins : Instruction) (rest : List Instruction)
    (cur : Nat) (stack : List CoupleV) :
    specComputeAux t (ins :: rest) cur stack =
      specComputeAux t rest (cur + 1)
        (stack.set cur (specEval t ins.operation (stack.getD ins.o0 cZero)
          (stack.getD ins.o1 cZero) (stack.getD ins.o2 cZero))) := rfl

theorem computeAux_spec (t : Transc) :
    ∀ (l : List Instruction) (cur : Nat) (stack : List CoupleV) (ch : Option (List Bool)),
      cur + l.length ≤ stack.length →
      (∀ i ∈ List.range l.length,
        (l.get! i).o0 < cur + i ∧ (l.get! i).o1 < cur + i ∧ (l.get! i).o2 < cur + i) →
      ∃ ch2, computeAux t l cur stack ch = .ok (specComputeAux t l cur stack, ch2)
  | [], _, _, ch, _, _ => ⟨ch, rfl⟩
  | ins :: rest, cur, stack, ch, hlen, hb => by
    have hcur : cur < stack.length := by
      simp only [List.length_cons] at hlen
      omega
    obtain ⟨⟨b0, b1, b2⟩, hrest⟩ := bounds_cons.mp hb
    have m0 : ins.o0 < min cur stack.length := lt_min b0 (lt_trans b0 hcur)
    have m1 : ins.o1 < min cur stack.length := lt_min b1 (lt_trans b1 hcur)
    have m2 : ins.o2 < min cur stack.length := lt_min b2 (lt_trans b2 hcur)
    rw [computeAux_cons t ins rest cur stack ch m0 m1 m2, specComputeAux_cons]
    rw [computeIns_eq_specEval]
    have hlen2 : cur + 1 + rest.length ≤
        (stack.set cur (specEval t ins.operation (stack.getD ins.o0 cZero)
          (stack.getD ins.o1 cZero) (stack.getD ins.o2 cZero))).length := by
      simp only [List.length_set, List.length_cons] at hlen ⊢
      omega
    exact computeAux_spec t rest (cur + 1) _ _ hlen2 hrest

theorem computeAux_ok_bounds (t : Transc) :
    ∀ (l : List Instruction) (cur : Nat) (stack : List CoupleV) (ch : Option (List Bool))
      (res : List CoupleV × Option (List Bool)),
      cur + l.length ≤ stack.length →
      computeAux t l cur stack ch = .ok res →
      ∀ i ∈ List.range l.length,
        (l.get! i).o0 < cur + i ∧ (l.get! i).o1 < cur + i ∧ (l.get! i).o2 < cur + i
  | [], _, _, _, _, _, _ => by simp
  | ins :: rest, cur, stack, ch, res, hlen, hok => by
    have hcur : cur < stack.length := by
      simp only [List.length_cons] at hlen
      omega
    by_cases hm : ins.o0 < min cur stack.length ∧ ins.o1 < min cur stack.length ∧
        ins.o2 < min cur stack.length
    · obtain ⟨m0, m1, m2⟩ := hm
      rw [computeAux_cons t ins rest cur stack ch m0 m1 m2] at hok
      have hlen2 : cur + 1 + rest.length ≤ (stack.set cur (computeIns t ins
          (stack.getD ins.o0 cZero) (stack.getD ins.o1 cZero)
          (stack.getD ins.o2 cZero))).length := by
        simp only [List.length_set, List.length_cons] at hlen ⊢
        omega
      have hrest := computeAux_ok_bounds t rest (cur + 1) _ _ res hlen2 hok
      refine bounds_cons.mpr ⟨⟨?_, ?_, ?_⟩, hrest⟩ <;> omega
    · rw [computeAux_cons_err t ins rest cur stack ch hm] at hok
      exact absurd hok (by simp)

theorem computeAux_err_form (t : Transc) :
    ∀ (l : List Instruction) (cur : Nat) (stack : List CoupleV) (ch : Option (List Bool)),
      (∃ res, computeAux t l cur stack ch = .ok res) ∨
        computeAux t l cur stack ch = .error .InvalidOperation
  | [], _, stack, ch => .inl ⟨(stack, ch), rfl⟩
  | ins :: rest, cur, stack, ch => by
    by_cases hm : ins.o0 < min cur stack.length ∧ ins.o1 < min cur stack.length ∧
        ins.o2 < min cur stack.length
    · obtain ⟨m0, m1, m2⟩ := hm
      rw [computeAux_cons t ins rest cur stack ch m0 m1 m2]
      exact computeAux_err_form t rest (cur + 1) _ _
    · exact .inr (computeAux_cons_err t ins rest cur stack ch hm)

theorem computeAux_preserves (t : Transc) :
    ∀ (l : List Instruction) (cur : Nat) (stack : List CoupleV) (ch : Option (List Bool))
      (st2 : List CoupleV) (ch2 : Option (List Bool)) (d : CoupleV),
      computeAux t l cur stack ch = .ok (st2, ch2) →
      ∀ k, k < cur ∨ cur + l.length ≤ k → st2.getD k d = stack.getD k d
  | [], _, stack, ch, st2, ch2, d => by
    intro hok k _
    obtain ⟨rfl, rfl⟩ : stack = st2 ∧ ch = ch2 := by
      simpa [computeAux] using hok
    rfl
  | ins :: rest, cur, stack, ch, st2, ch2, d => by
    intro hok k hk
    by_cases hm : ins.o0 < min cur stack.length ∧ ins.o1 < min cur stack.length ∧
        ins.o2 < min cur stack.length
    · obtain ⟨m0, m1, m2⟩ := hm
      rw [computeAux_cons t ins rest cur stack ch m0 m1 m2] at hok
      have hk2 : k < cur + 1 ∨ cur + 1 + rest.length ≤ k := by
        simp only [List.length_cons] at hk
        omega
      have hrec := computeAux_preserves t rest (cur + 1) _ _ st2 ch2 d hok k hk2
      rw [hrec]
      have hne : cur ≠ k := by
        simp only [List.length_cons] at hk
        omega
      simp [List.getD_eq_getElem?_getD, List.getElem?_set_ne hne]
    · rw [computeAux_cons_err t ins rest cur stack ch hm] at hok
      exact absurd hok (by simp)

theorem computeAux_changes (t : Transc) :
    ∀ (l : List Instruction) (cur : Nat) (stack : List CoupleV) (ch : List Bool)
      (st2 : List CoupleV) (och2 : Option (List Bool)),
      cur + l.length ≤ stack.length →
      ch.length = stack.length →
      computeAux t l cur stack (some ch) = .ok (st2, och2) →
      ∃ ch2, och2 = some ch2 ∧ ch2.length = ch.length ∧
        (∀ k, k < cur ∨ cur + l.length ≤ k → ch2.getD k false = ch.getD k false) ∧
        (∀ i ∈ List.range l.length,
          ch2.getD (cur + i) false =
            (ch.getD (cur + i) false ||
              !coupleEqF (st2.getD (cur + i) cZero) (stack.getD (cur + i) cZero)))
  | [], _, stack, ch, st2, och2 => by
    intro _ _ hok
    obtain ⟨rfl, rfl⟩ : stack = st2 ∧ some ch = och2 := by
      simpa [computeAux] using hok
    exact ⟨ch, rfl, rfl, fun _ _ => rfl, by simp⟩
  | ins :: rest, cur, stack, ch, st2, och2 => by
    intro hlen hchlen hok
    have hcur : cur < stack.length := by
      simp only [List.length_cons] at hlen
      omega
    have hcurch : cur < ch.length := by omega
    by_cases hm : ins.o0 < min cur stack.length ∧ ins.o1 < min cur stack.length ∧
        ins.o2 < min cur stack.length
    · obtain ⟨m0, m1, m2⟩ := hm
      rw [computeAux_cons t ins rest cur stack (some ch) m0 m1 m2] at hok
      set result := computeIns t ins (stack.getD ins.o0 cZero)
        (stack.getD ins.o1 cZero) (stack.getD ins.o2 cZero) with hres
      have harg : (if coupleEqF result (stack.getD cur cZero) = false
          then (some ch).map (fun c => c.set cur true) else some ch)
          = some (if coupleEqF result (stack.getD cur cZero) = false
            then ch.set cur true else ch) := by
        split <;> simp
      rw [harg] at hok
      set ch1 := if coupleEqF result (stack.getD cur cZero) = false
        then ch.set cur true else ch with hch1
      have hch1ch : ch1.length = ch.length := by
        rw [hch1, apply_ite List.length]
        simp
      have hch1len : ch1.length = (stack.set cur result).length := by
        simp [hch1ch, hchlen]
      have hlen2 : cur + 1 + rest.length ≤ (stack.set cur result).length := by
        simp only [List.length_set, List.length_cons] at hlen ⊢
        omega
      obtain ⟨ch2, hoch, hlen3, hout, hin⟩ :=
        computeAux_changes t rest (cur + 1) _ ch1 st2 och2 hlen2 hch1len hok
      have hch1_at : ∀ k, k ≠ cur → ch1.getD k false = ch.getD k false := by
        intro k hk
        rw [hch1]
        split
        · simp [List.getD_eq_getElem?_getD, List.getElem?_set_ne (Ne.symm hk)]
        · rfl
      have hch1_cur : ch1.getD cur false =
          (ch.getD cur false || !coupleEqF result (stack.getD cur cZero)) := by
        rw [hch1]
        split
        · rename_i hc
          rw [hc]
          simp [List.getD_eq_getElem?_getD, List.getElem?_set_self, hcurch]
        · rename_i hc
          have hc2 : coupleEqF result (stack.getD cur cZero) = true := by
            simpa using hc
          rw [hc2]
          simp
      have hst2_cur : st2.getD cur cZero = result := by
        have hp := computeAux_preserves t rest (cur + 1) _ _ st2 och2 cZero hok cur
          (.inl (by omega))
        rw [hp]
        simp [List.getD_eq_getElem?_getD, List.getElem?_set_self, hcur]
      have hstack1_at : ∀ k, k ≠ cur →
          (stack.set cur result).getD k cZero = stack.getD k cZero := by
        intro k hk
        simp [List.getD_eq_getElem?_getD, List.getElem?_set_ne (Ne.symm hk)]
      refine ⟨ch2, hoch, by rw [hlen3, hch1ch], ?_, ?_⟩
      · intro k hk
        simp only [List.length_cons] at hk
        have hk2 : k < cur + 1 ∨ cur + 1 + rest.length ≤ k := by omega
        rw [hout k hk2, hch1_at k (by omega)]
      · intro i hi
        cases i with
        | zero =>
          have h0 := hout cur (.inl (by omega))
          rw [Nat.add_zero, h0, hch1_cur, hst2_cur]
        | succ j =>
          have hj : j ∈ List.range rest.length := by
            simp only [List.mem_range, List.length_cons] at hi ⊢
            omega
          have hj2 := hin j hj
          have e : cur + 1 + j = cur + (j + 1) := by omega
          rw [e] at hj2
          rw [hj2, hch1_at _ (by omega), hstack1_at _ (by omega)]
    · rw [computeAux_cons_err t ins rest cur stack (some ch) hm] at hok
      exact absurd hok (by simp)

/-! ## Validation lemmas (`Program::valid`) -/

theorem inf_eq {a b : Nat} : inf a b = some () ↔ a < b := by
  unfold inf
  split <;> simp_all

theorem infS_eq {l : List Nat} {b : Nat} : infS l b = some () ↔ ∀ x ∈ l, x < b := by
  unfold infS
  split <;> simp_all [List.all_eq_true]

theorem checkAll_eq (f : α → Option Unit) :
    ∀ l : List α, (checkAll f l = some ()) ↔ ∀ x ∈ l, f x = some ()
  | [] => by simp [checkAll]
  | x :: l => by
    rw [checkAll]
    cases hfx : f x with
    | none => simp [hfx, Option.bind]
    | some u =>
      cases u
      simp [hfx, Option.bind, checkAll_eq f l]

theorem checkInstrs_sound :
    ∀ (l : List Instruction) (mx m : Nat), checkInstrs mx l = some m →
      m = mx + l.length ∧
      ∀ i ∈ List.range l.length,
        (l.get! i).o0 < mx + i ∧ (l.get! i).o1 < mx + i ∧ (l.get! i).o2 < mx + i
  | [], mx, m => by
    intro h
    obtain rfl : mx = m := by simpa [checkInstrs] using h
    simp
  | ins :: rest, mx, m => by
    intro h
    rw [checkInstrs] at h
    cases hi : infS [ins.o0, ins.o1, ins.o2] mx with
    | none => rw [hi] at h; simp [Option.bind] at h
    | some u =>
      cases u
      rw [hi] at h
      simp only [Option.bind] at h
      obtain ⟨hm, hrest⟩ := checkInstrs_sound rest (mx + 1) m h
      have hops := infS_eq.mp hi
      refine ⟨by simp only [List.length_cons]; omega, bounds_cons.mpr ⟨⟨?_, ?_, ?_⟩, hrest⟩⟩
      · exact hops ins.o0 (by simp)
      · exact hops ins.o1 (by simp)
      · exact hops ins.o2 (by simp)

theorem valid_sound {p : Program} (h : p.valid = some ()) : Invariants p := by
  unfold Program.valid at h
  simp only [Option.bind_eq_some, bind] at h
  obtain ⟨mx, hmx, hrest⟩ := h
  obtain ⟨hm, hinv1⟩ := checkInstrs_sound p.instructions p.arguments.length mx hmx
  subst hm
  obtain ⟨⟨⟩, hO, ⟨⟩, hR, ⟨⟩, hC, ⟨⟩, hQ, ⟨⟩, hL, ⟨⟩, hT, ⟨⟩, hS, ⟨⟩, hP, ⟨⟩, hB, hSt⟩ := hrest
  refine ⟨?_, ?_, ?_, ?_, ?_, ?_, ?_, ?_, ?_, ?_, ?_⟩
  · intro i hi o ho
    obtain ⟨a1, a2, a3⟩ := hinv1 i hi
    simp only [List.mem_cons, List.not_mem_nil, or_false] at ho
    rcases ho with rfl | rfl | rfl
    · exact a1
    · exact a2
    · exact a3
  · intro o ho
    exact inf_eq.mp ((checkAll_eq _ _).mp hO o ho)
  · intro a ha
    have := infS_eq.mp ((checkAll_eq _ _).mp hR a ha)
    exact ⟨this _ (by simp), this _ (by simp), this _ (by simp)⟩
  · intro c hc
    have := infS_eq.mp ((checkAll_eq _ _).mp hC c hc)
    exact ⟨this _ (by simp), this _ (by simp), this _ (by simp), this _ (by simp)⟩
  · intro q hq
    have := infS_eq.mp ((checkAll_eq _ _).mp hQ q hq)
    exact ⟨this _ (by simp), this _ (by simp), this _ (by simp)⟩
  · intro l hl
    have := infS_eq.mp ((checkAll_eq _ _).mp hL l hl)
    exact ⟨this _ (by simp), this _ (by simp)⟩
  · intro tr htr
    have := (checkAll_eq _ _).mp hT tr htr
    simp only [Option.bind_eq_some, bind] at this
    obtain ⟨⟨⟩, h1, ⟨⟩, h2, ⟨⟩, h3, h4⟩ := this
    have e1 := infS_eq.mp h1
    have e2 := infS_eq.mp h2
    have e3 := infS_eq.mp h3
    have e4 := infS_eq.mp h4
    exact ⟨⟨e1 _ (by simp), e1 _ (by simp), e1 _ (by simp)⟩,
      e2 _ (by simp), e2 _ (by simp), e3 _ (by simp), e3 _ (by simp),
      e4 _ (by simp), e4 _ (by simp)⟩
  · intro s hs
    have := (checkAll_eq _ _).mp hS s hs
    simp only [Option.bind_eq_some, bind] at this
    obtain ⟨⟨⟩, h1, h2⟩ := this
    have e1 := infS_eq.mp h1
    have e2 := infS_eq.mp h2
    exact ⟨e1 _ (by simp), e1 _ (by simp), e2 _ (by simp), e2 _ (by simp)⟩
  · intro steps hsteps s hs
    have := (checkAll_eq _ _).mp ((checkAll_eq _ _).mp hP steps hsteps) s hs
    exact inf_eq.mp this
  · intro bg hbg idx hidx
    exact inf_eq.mp ((checkAll_eq _ _).mp ((checkAll_eq _ _).mp hB bg hbg) idx hidx)
  · intro s hs
    have := (checkAll_eq _ _).mp hSt s hs
    cases s with
    | Clip i1 i2 =>
      simp only [checkRenderingStep, Option.bind_eq_some, bind] at this
      obtain ⟨⟨⟩, h1, h2⟩ := this
      exact ⟨inf_eq.mp h1, inf_eq.mp h2⟩
    | Stroke i1 i2 =>
      simp only [checkRenderingStep, Option.bind_eq_some, bind] at this
      obtain ⟨⟨⟩, h1, h2⟩ := this
      exact ⟨inf_eq.mp h1, inf_eq.mp h2⟩

/-! ## Rust equality lemmas -/

theorem f32EqRust_self {b : Nat} (h : isNan32 b = false) : f32EqRust b b = true := by
  simp [f32EqRust, h]

theorem coupleEqBits_self {c : BCouple} (h : wfCoupleBits c = true) :
    coupleEqBits c c = true := by
  simp only [wfCoupleBits, Bool.and_eq_true, and_assoc, Bool.not_eq_true'] at h
  simp [coupleEqBits, f32EqRust_self h.2.2.1, f32EqRust_self h.2.2.2]

theorem argEqRust_self {a : BArgument} (h : wfArg a = true) : argEqRust a a = true := by
  simp only [wfArg, Bool.and_eq_true, and_assoc] at h
  simp [argEqRust, coupleEqBits_self h.2.1, coupleEqBits_self h.2.2.1,
    coupleEqBits_self h.2.2.2]

theorem listEqWith_self (f : α → α → Bool) :
    ∀ l : List α, (∀ x ∈ l, f x x = true) → listEqWith f l l = true
  | [], _ => rfl
  | x :: l, h => by
    simp only [listEqWith, Bool.and_eq_true]
    exact ⟨h x (List.mem_cons_self x l),
      listEqWith_self f l fun y hy => h y (List.mem_cons_of_mem x hy)⟩

theorem progEq_self {p : Program} (h : p.wf = true) : progEq p p = true := by
  simp only [Program.wf, Bool.and_eq_true, and_assoc, decide_eq_true_eq,
    List.all_eq_true] at h
  simp [progEq, listEqWith_self argEqRust p.arguments fun a ha => argEqRust_self (h.2.1 a ha)]

/-! # Claim theorems -/

/-- C1 counterexample: the round-trip claim fails as stated.  The legal
`Program` value whose only argument is named `Some("")` parses back with
`name = None`: the reparse is not `==` to the original (and not equal at
all), refuting "parse(encode(P)) == P" for every well-formed Program. -/
theorem c1_roundtrip_counterexample :
    parse (dump emptyNameProgram) =
      .ok { emptyProgram with arguments := [⟨none, ⟨0, 0⟩, ⟨0, 0⟩, ⟨0, 0⟩⟩] } ∧
    progEq { emptyProgram with arguments := [⟨none, ⟨0, 0⟩, ⟨0, 0⟩, ⟨0, 0⟩⟩] }
      emptyNameProgram = false ∧
    ({ emptyProgram with arguments := [⟨none, ⟨0, 0⟩, ⟨0, 0⟩, ⟨0, 0⟩⟩] } : Program) ≠
      emptyNameProgram :=
  ⟨by decide, by decide, by decide⟩

/-- C1 (amended): for every Program whose names are non-empty valid UTF-8,
whose numeric fields and list lengths fit in `u32`, and which holds no NaN,
re-parsing its encoding yields the program back exactly (hence `==` holds,
and re-encoding the reparse is byte-identical). -/
theorem c1_roundtrip_amended (P : Program) (h : P.wf = true) :
    parse (dump P) = .ok P ∧ progEq P P = true ∧
    (parse (dump P)).map dump = .ok (dump P) := by
  refine ⟨parse_dump h, progEq_self h, ?_⟩
  rw [parse_dump h]
  rfl

/-- C1 witness: the amended round trip at a concrete named program. -/
theorem c1_roundtrip_witness :
    namedProgram.wf = true ∧ parse (dump namedProgram) = .ok namedProgram :=
  ⟨by decide, (c1_roundtrip_amended namedProgram (by decide)).1⟩

/-- C3: `Program::parse` runs the §3 validation after the forward parse,
so every successful parse satisfies all §3 invariants; and the concrete
file whose instruction operand is `u32::MAX` fails with `InvalidIndex`. -/
theorem c3_parse_validates :
    (∀ (bytes : List Nat) (P : Program),
        Program.parseChecked bytes = .ok P → Invariants P) ∧
    Program.parseChecked badOperandBytes = .error .InvalidIndex := by
  constructor
  · intro bytes P h
    unfold Program.parseChecked at h
    split at h
    · rename_i q hq
      split at h
      · rename_i u hv
        cases u
        obtain rfl : q = P := by simpa using h
        exact valid_sound hv
      · exact absurd h (by simp)
    · exact absurd h (by simp)
  · decide

/-- C3 witness: a concrete successful parse (the empty file), whose result
therefore satisfies the §3 invariants. -/
theorem c3_witness : Invariants emptyProgram :=
  c3_parse_validates.1 emptyBytes emptyProgram (by decide)

/-- C4 (code bug): `size` counts 4 u32 words per rendering step, but
`dump` writes 3.  On a program with one (empty) path, one (empty)
background and a single Clip step, the encoded length is 72 bytes while
`file_size` reports 76. -/
theorem c4_size_mismatch :
    (dump c4Program).length = 72 ∧ size c4Program = 76 ∧
    c4Program.valid = some () ∧
    Program.fileSize c4Program ≠ (dump c4Program).length :=
  ⟨by decide, by decide, by decide, by decide⟩

/-- C2: `compute` evaluates the instructions in order, reading the three
operand slots and writing the table result of the §4.1 opcode formulas
into `stack[arguments.len() + i]` (the code loop refines the spec-modelled
`specComputeAux`); and on the spec's concrete example — `Multiply2` of
`(200, 200)` and `(0.05, 0.05)` — slot 2 holds `(10, 10)` after compute. -/
theorem c2_compute_table :
    (∀ (t : Transc) (p : CProgram) (stack : List CoupleV) (ch : Option (List Bool)),
      stack.length = p.argCount + p.instructions.length →
      Inv1 p →
      ∃ ch2, p.compute t stack ch =
        .ok (specComputeAux t p.instructions p.argCount stack, ch2)) ∧
    (mulProgram.compute dummyTransc mulStack none).map (fun res => res.1.getD 2 cZero) =
      .ok ⟨.fin 10, .fin 10⟩ := by
  constructor
  · intro t p stack ch hlen hinv
    exact computeAux_spec t p.instructions p.argCount stack ch (by omega) hinv
  · rw [show mulProgram.compute dummyTransc mulStack none =
      computeAux dummyTransc [⟨.Multiply2, 0, 1, 0⟩] 2 mulStack none from rfl]
    rw [computeAux_cons dummyTransc ⟨.Multiply2, 0, 1, 0⟩ [] 2 mulStack none
      (by decide) (by decide) (by decide)]
    have e : computeIns dummyTransc ⟨.Multiply2, 0, 1, 0⟩ (mulStack.getD 0 cZero)
        (mulStack.getD 1 cZero) (mulStack.getD 0 cZero) =
        ⟨.fin 10, .fin 10⟩ := by
      show (⟨fmul (.fin 200) (.fin (1 / 20)), fmul (.fin 200) (.fin (1 / 20))⟩ : CoupleV) =
        ⟨.fin 10, .fin 10⟩
      norm_num [fmul]
    rw [e]
    simp [computeAux, Except.map, mulStack]

/-- C2 witness: the general conjunct applied to a concrete one-argument
`Select2` program. -/
theorem c2_compute_table_witness :
    ∃ ch2, selProgram.compute dummyTransc selStack none =
      .ok (specComputeAux dummyTransc selProgram.instructions selProgram.argCount selStack,
        ch2) :=
  c2_compute_table.1 dummyTransc selProgram selStack none (by decide)
    (by unfold Inv1; decide)

/-- C5: when a changes bitset is supplied, `compute` sets exactly the bits
of slots whose newly computed value differs (Rust `!=`) from the prior
content: every argument-slot bit and every out-of-range bit is left
untouched, and the bit of instruction slot `arguments.len() + i` becomes
its old value OR-ed with whether the slot's final value differs from its
prior content (so a set bit is never cleared). -/
theorem c5_change_bits :
    ∀ (t : Transc) (p : CProgram) (stack : List CoupleV) (ch : List Bool)
      (st2 : List CoupleV) (och2 : Option (List Bool)),
      stack.length = p.argCount + p.instructions.length →
      ch.length = stack.length →
      p.compute t stack (some ch) = .ok (st2, och2) →
      ∃ ch2, och2 = some ch2 ∧
        (∀ k, k < p.argCount ∨ p.argCount + p.instructions.length ≤ k →
          ch2.getD k false = ch.getD k false) ∧
        (∀ i ∈ List.range p.instructions.length,
          ch2.getD (p.argCount + i) false =
            (ch.getD (p.argCount + i) false ||
              !coupleEqF (st2.getD (p.argCount + i) cZero)
                (stack.getD (p.argCount + i) cZero))) := by
  intro t p stack ch st2 och2 hlen hchlen hok
  obtain ⟨ch2, ho, _, hout, hin⟩ :=
    computeAux_changes t p.instructions p.argCount stack ch st2 och2 (by omega) hchlen hok
  exact ⟨ch2, ho, hout, hin⟩

/-- C5 witness: the characterization at a concrete `Select2` program whose
computed slot changes from `(0,0)` to `(1,2)`. -/
theorem c5_change_bits_witness :
    ∃ ch2, (some [false, true] : Option (List Bool)) = some ch2 ∧
      (∀ k, k < selProgram.argCount ∨
          selProgram.argCount + selProgram.instructions.length ≤ k →
        ch2.getD k false = [false, false].getD k false) ∧
      (∀ i ∈ List.range selProgram.instructions.length,
        ch2.getD (selProgram.argCount + i) false =
          ([false, false].getD (selProgram.argCount + i) false ||
            !coupleEqF (([⟨.fin 1, .fin 2⟩, ⟨.fin 1, .fin 2⟩] : List CoupleV).getD
                (selProgram.argCount + i) cZero)
              (selStack.getD (selProgram.argCount + i) cZero))) :=
  c5_change_bits dummyTransc selProgram selStack [false, false]
    [⟨.fin 1, .fin 2⟩, ⟨.fin 1, .fin 2⟩] (some [false, true])
    (by decide) (by decide) (by decide)

/-- C10: `compute` never reads a stack slot at or beyond
`arguments.len() + i` while evaluating instruction `i` — an out-of-bounds
operand surfaces as an `InvalidOperation` error instead — and under §3
invariant 1 the error branch is unreachable: compute succeeds exactly when
every operand references an earlier slot. -/
theorem c10_compute_bounds :
    ∀ (t : Transc) (p : CProgram) (stack : List CoupleV) (ch : Option (List Bool)),
      stack.length = p.argCount + p.instructions.length →
      ((∃ res, p.compute t stack ch = .ok res) ↔ Inv1 p) ∧
      (¬ Inv1 p → p.compute t stack ch = .error .InvalidOperation) := by
  intro t p stack ch hlen
  constructor
  · constructor
    · rintro ⟨res, hres⟩
      exact computeAux_ok_bounds t p.instructions p.argCount stack ch res (by omega) hres
    · intro hinv
      obtain ⟨ch2, h⟩ := computeAux_spec t p.instructions p.argCount stack ch (by omega) hinv
      exact ⟨_, h⟩
  · intro hninv
    rcases computeAux_err_form t p.instructions p.argCount stack ch with ⟨res, hres⟩ | herr
    · exact absurd
        (computeAux_ok_bounds t p.instructions p.argCount stack ch res (by omega) hres)
        hninv
    · exact herr

/-- C10 witness: a program whose single instruction reads slot 1 at
instruction 0 (bound is 1) is rejected with `InvalidOperation`. -/
theorem c10_compute_bounds_witness :
    oobProgram.compute dummyTransc [cZero, cZero] none = .error .InvalidOperation :=
  (c10_compute_bounds dummyTransc oobProgram [cZero, cZero] none (by decide)).2
    (by unfold Inv1; decide)

theorem fltLt_nan_left (a : Flt) : fltLt .nan a = false := by
  cases a <;> rfl

theorem fltLt_nan_right (a : Flt) : fltLt a .nan = false := by
  cases a <;> rfl

theorem fltLt_irrefl (a : Flt) : fltLt a a = false := by
  cases a with
  | fin q => simp [fltLt, pcmp, rcmp_of_eq rfl]
  | pinf => rfl
  | ninf => rfl
  | nan => rfl

/-- C6: `Inside3` returns `(1,0)` iff both coordinates of the first
operand lie strictly between the second and third operands, and `(0,1)`
otherwise; any NaN among the six compared values, or a boundary equality
such as `a.x == b.x`, yields `(0,1)`. -/
theorem c6_inside3_strictness :
    ∀ (t : Transc) (ops : Instruction) (a b c : CoupleV), ops.operation = .Inside3 →
      (computeIns t ops a b c = ⟨.fin 1, .fin 0⟩ ∨
        computeIns t ops a b c = ⟨.fin 0, .fin 1⟩) ∧
      (computeIns t ops a b c = ⟨.fin 1, .fin 0⟩ ↔
        (fltLt b.x a.x = true ∧ fltLt a.x c.x = true ∧
         fltLt b.y a.y = true ∧ fltLt a.y c.y = true)) ∧
      ((a.x = .nan ∨ a.y = .nan ∨ b.x = .nan ∨ b.y = .nan ∨ c.x = .nan ∨ c.y = .nan) →
        computeIns t ops a b c = ⟨.fin 0, .fin 1⟩) ∧
      (a.x = b.x → computeIns t ops a b c = ⟨.fin 0, .fin 1⟩) := by
  intro t ops a b c hop
  rw [computeIns_eq_specEval, hop]
  have hres : specEval t .Inside3 a b c =
      if (fltLt b.x a.x && fltLt a.x c.x && fltLt b.y a.y && fltLt a.y c.y) = true
      then (⟨.fin 1, .fin 0⟩ : CoupleV) else ⟨.fin 0, .fin 1⟩ := rfl
  rw [hres]
  by_cases hc : (fltLt b.x a.x && fltLt a.x c.x && fltLt b.y a.y && fltLt a.y c.y) = true
  · rw [if_pos hc]
    have hcs := hc
    simp only [Bool.and_eq_true] at hcs
    obtain ⟨⟨⟨f1, f2⟩, f3⟩, f4⟩ := hcs
    refine ⟨.inl rfl, iff_of_true rfl ⟨f1, f2, f3, f4⟩, ?_, ?_⟩
    · rintro (h | h | h | h | h | h)
      · rw [h, fltLt_nan_right] at f1
        exact absurd f1 (by simp)
      · rw [h, fltLt_nan_right] at f3
        exact absurd f3 (by simp)
      · rw [h, fltLt_nan_left] at f1
        exact absurd f1 (by simp)
      · rw [h, fltLt_nan_left] at f3
        exact absurd f3 (by simp)
      · rw [h, fltLt_nan_right] at f2
        exact absurd f2 (by simp)
      · rw [h, fltLt_nan_right] at f4
        exact absurd f4 (by simp)
    · intro hab
      rw [hab, fltLt_irrefl] at f1
      exact absurd f1 (by simp)
  · rw [if_neg hc]
    refine ⟨.inr rfl, iff_of_false (by decide) ?_, fun _ => rfl, fun _ => rfl⟩
    rintro ⟨g1, g2, g3, g4⟩
    exact hc (by simp [g1, g2, g3, g4])

/-- C6 witness: the boundary case of spec scenario 6 — `a = (1,1)`,
`b = (1,0)`, `c = (2,2)` gives `(0,1)` because `a.x == b.x`. -/
theorem c6_inside3_strictness_witness :
    computeIns dummyTransc ⟨.Inside3, 0, 1, 2⟩ ⟨.fin 1, .fin 1⟩ ⟨.fin 1, .fin 0⟩
      ⟨.fin 2, .fin 2⟩ = ⟨.fin 0, .fin 1⟩ :=
  (c6_inside3_strictness dummyTransc ⟨.Inside3, 0, 1, 2⟩ ⟨.fin 1, .fin 1⟩
    ⟨.fin 1, .fin 0⟩ ⟨.fin 2, .fin 2⟩ rfl).2.2.2 (by decide)

/-- C7 (code bug): `NaiveRenderer::output` matches the name in the Output
table but then indexes the stack with the output's **position in the
table** rather than the entry's stored `address`.  With one output named
`"o"` whose address is 1 over the stack `[(5,5), (7,7)]`, the code returns
`(5,5)` (slot 0) while resolving via the Output table as the spec states
yields `(7,7)` (slot 1). -/
theorem c7_output_bug :
    NaiveRenderer.output r7 [111] = .ok (some ⟨.fin 5, .fin 5⟩) ∧
    outputSpec r7 [111] = some ⟨.fin 7, .fin 7⟩ ∧
    (⟨.fin 5, .fin 5⟩ : CoupleV) ≠ ⟨.fin 7, .fin 7⟩ :=
  ⟨by decide, by decide, by decide⟩

theorem setArgLoop_no_match {nm : List Nat} {v : CoupleV} :
    ∀ (args : List RArgument) (i : Nat) (stack : List CoupleV) (ch : List Bool),
      (∀ a ∈ args, a.name ≠ some nm) →
      setArgLoop nm v i args stack ch = (stack, ch)
  | [], _, _, _ => fun _ => rfl
  | a :: rest, i, stack, ch => by
    intro h
    rw [setArgLoop, if_neg (h a (List.mem_cons_self a rest))]
    exact setArgLoop_no_match rest (i + 1) stack ch
      fun x hx => h x (List.mem_cons_of_mem a hx)

theorem setArgLoop_found {nm : List Nat} {v : CoupleV} :
    ∀ (args : List RArgument) (i p : Nat) (stack : List CoupleV) (ch : List Bool),
      findNamePos nm i (args.map fun a => a.name) = some p →
      setArgLoop nm v i args stack ch =
        if coupleEqF (stack.getD p cZero) v = false
        then (stack.set p v, ch.set p true) else (stack, ch)
  | [], i, p, stack, ch => by
    intro h
    exact absurd h (by simp [findNamePos])
  | a :: rest, i, p, stack, ch => by
    intro h
    rw [List.map_cons, findNamePos] at h
    rw [setArgLoop]
    by_cases hn : a.name = some nm
    · rw [if_pos hn] at h ⊢
      obtain rfl : i = p := by simpa using h
      split <;> rfl
    · rw [if_neg hn] at h ⊢
      exact setArgLoop_found rest (i + 1) p stack ch h

/-- C8 counterexample: `set_argument` with an unknown name does **not**
return a not-found result — it returns plain success (`Ok(())`), leaving
the renderer untouched. -/
theorem c8_set_argument_counterexample :
    NaiveRenderer.setArgument r8 [122] cZero = .ok r8 ∧
    ∀ e, NaiveRenderer.setArgument r8 [122] cZero ≠ .error e := by
  have h : NaiveRenderer.setArgument r8 [122] cZero = .ok r8 := by decide
  exact ⟨h, fun e he => by rw [h] at he; exact absurd he (by simp)⟩

/-- C8 (amended): `set_argument` always returns success.  When no
argument bears the name it mutates nothing; when the name exists at first
position `p`, it is a no-op if the value equals (Rust `==`) the current
slot content, and otherwise writes the value into slot `p` and marks that
slot dirty. -/
theorem c8_set_argument_amended :
    ∀ (r : NaiveRenderer) (nm : List Nat) (v : CoupleV),
      ((∀ a ∈ r.program.arguments, a.name ≠ some nm) →
        r.setArgument nm v = .ok r) ∧
      (∀ p, findNamePos nm 0 (r.program.arguments.map fun a => a.name) = some p →
        (coupleEqF (r.stack.getD p cZero) v = true → r.setArgument nm v = .ok r) ∧
        (coupleEqF (r.stack.getD p cZero) v = false →
          r.setArgument nm v =
            .ok ⟨r.program, r.stack.set p v, r.stackChanges.set p true⟩)) := by
  intro r nm v
  constructor
  · intro h
    unfold NaiveRenderer.setArgument
    rw [setArgLoop_no_match r.program.arguments 0 r.stack r.stackChanges h]
  · intro p hp
    constructor
    · intro heq
      unfold NaiveRenderer.setArgument
      rw [setArgLoop_found r.program.arguments 0 p r.stack r.stackChanges hp,
        if_neg (by rw [heq]; simp)]
    · intro hne
      unfold NaiveRenderer.setArgument
      rw [setArgLoop_found r.program.arguments 0 p r.stack r.stackChanges hp,
        if_pos hne]

/-- C8 witness: setting the existing argument `"a"` of `r8` to a
different value writes the slot and marks it dirty. -/
theorem c8_set_argument_witness :
    r8.setArgument [97] ⟨.fin 2, .fin 2⟩ =
      .ok ⟨r8.program, r8.stack.set 0 ⟨.fin 2, .fin 2⟩, r8.stackChanges.set 0 true⟩ :=
  ((c8_set_argument_amended r8 [97] ⟨.fin 2, .fin 2⟩).2 0 (by decide)).2 (by decide)

/-- C9 counterexample: in opaque-write mode the blend does **not** compute
`dst = src · (coverage/255)` componentwise: at coverage 255 and source
`(200,0,0,0)` (zero alpha) the claim predicts the source written verbatim,
but the code writes `(0,0,0,0)`. -/
theorem c9_opaque_blend_counterexample :
    blendPixel ⟨0, 0, 0, 0⟩ ⟨200, 0, 0, 0⟩ 255 false = ⟨0, 0, 0, 0⟩ ∧
    (⟨0, 0, 0, 0⟩ : Pixel) ≠ ⟨200, 0, 0, 0⟩ :=
  ⟨by decide, by decide⟩

/-- C9 (amended): in opaque-write mode (`alpha_blend` false) every channel
(alpha included) becomes `src_c · α / 255` where the effective alpha is
`α = src.a · coverage / 255` (integer division); when `src.a = 255` this
is `src_c · coverage / 255`, and coverage 255 with `src.a = 255` writes
the source verbatim. -/
theorem c9_opaque_blend_amended :
    ∀ (dst src : Pixel) (cov : Nat),
      blendPixel dst src cov false =
        ⟨src.r * (src.a * cov / 255) / 255, src.g * (src.a * cov / 255) / 255,
         src.b * (src.a * cov / 255) / 255, src.a * (src.a * cov / 255) / 255⟩ ∧
      (src.a = 255 → cov = 255 → blendPixel dst src cov false = src) := by
  intro dst src cov
  constructor
  · unfold blendPixel
    split
    · rename_i h
      simp only [Bool.and_eq_true, decide_eq_true_eq] at h
      obtain ⟨ha, hc⟩ := h
      obtain ⟨r, g, b, a⟩ := src
      simp only at ha hc
      subst ha hc
      have h255 : (255 : Nat) * 255 / 255 = 255 := rfl
      rw [h255]
      simp only [Pixel.mk.injEq]
      refine ⟨?_, ?_, ?_, trivial⟩ <;> omega
    · rfl
  · intro ha hc
    unfold blendPixel
    rw [if_pos (by simp [ha, hc])]

/-- C9 witness: a fully opaque source at full coverage is written
verbatim, matching the channel formula. -/
theorem c9_opaque_blend_witness :
    blendPixel ⟨9, 9, 9, 9⟩ ⟨10, 20, 30, 255⟩ 255 false = ⟨10, 20, 30, 255⟩ :=
  (c9_opaque_blend_amended ⟨9, 9, 9, 9⟩ ⟨10, 20, 30, 255⟩ 255).2 rfl rfl

end Railway
